import Mathlib

/-!
Verification development for the tiny_pnc interpolation / parametric-curve
kernel (`boyle::math`).  The C++ sources are shallowly embedded over exact
rationals: `double` arithmetic is idealised as `ℚ`, `std::vector` as `List`,
raw indexing as `List.getD` (or `List.get?` where bounds are under study),
and `std::hypot` as the exact rational square root `ratSqrt` (exact whenever
the radicand is the square of a rational; theorems that need exactness state
it as a hypothesis).  Every definition mirrors the corresponding C++ function
from the repository.
-/

namespace Boyle

/-- `boyle::math::kEpsilon` from `utils.hpp` (also `kDuplicateCriterion`). -/
def kEpsilon : ℚ := 1 / 100000000

/-- `boyle::math::lerp` from `utils.hpp`: `(1 - ratio) * start + ratio * end`. -/
def lerp (start stop ratio : ℚ) : ℚ := (1 - ratio) * start + ratio * stop

/-- Helper for the exact natural square root: largest `j ≤ k` with `j*j ≤ n`
(structural recursion so that proofs can evaluate it). -/
def natSqrtAux (n : ℕ) : ℕ → ℕ
  | 0 => 0
  | k+1 => if (k+1)*(k+1) ≤ n then k+1 else natSqrtAux n k

/-- Exact natural square root (floor), by downward search. -/
def natSqrtLinear (n : ℕ) : ℕ := natSqrtAux n n

/-- Rational square root: exact whenever numerator and denominator are perfect
squares.  This is the embedding of the exact real square root used by
`std::hypot` / `Vec2::euclidean`; theorems that rely on its exactness carry
the hypothesis `ratSqrt s ^ 2 = s`. -/
def ratSqrt (q : ℚ) : ℚ := (natSqrtLinear q.num.toNat : ℚ) / (natSqrtLinear q.den : ℚ)

/-- `std::ranges::is_sorted` on a rational sequence (non-decreasing). -/
def isSortedB : List ℚ → Bool
  | [] => true
  | [_] => true
  | a :: b :: t => decide (a ≤ b) && isSortedB (b :: t)

/-- Insertion step of the sort used to model `std::sort` in `hasDuplicates`. -/
def insertSorted (x : ℚ) : List ℚ → List ℚ
  | [] => [x]
  | y :: t => if x ≤ y then x :: y :: t else y :: insertSorted x t

/-- `std::sort` modelled as insertion sort (same function on a total order). -/
def sortQ : List ℚ → List ℚ
  | [] => []
  | x :: t => insertSorted x (sortQ t)

/-- Adjacent near-duplicate scan of `hasDuplicates` (`|*cur - *pre| < tol`). -/
def adjacentDupB (tol : ℚ) : List ℚ → Bool
  | [] => false
  | [_] => false
  | a :: b :: t => decide (|b - a| < tol) || adjacentDupB tol (b :: t)

/-- `boyle::math::hasDuplicates` (Arithmetic overload, `utils.hpp`): sorts a
copy and looks for two adjacent elements closer than `tol`. -/
def hasDuplicates (l : List ℚ) (tol : ℚ) : Bool :=
  if l.length < 2 then false else adjacentDupB tol (sortQ l)

/-- Index of the first element satisfying `p` (or the length when none does):
the result of a `std::upper_bound` / `std::lower_bound` binary search on a
range partitioned with respect to `p`, which the sorted ranges of this code
always are. -/
def firstSatisfying (p : ℚ → Bool) : List ℚ → ℕ
  | [] => 0
  | x :: l => if p x then 0 else firstSatisfying p l + 1

/-- `std::ranges::upper_bound` with comparator `lhs - rhs < -tol`: the index
of the first element `x` with `t - x < -tol`. -/
def upperBoundIdx (ts : List ℚ) (t : ℚ) (tol : ℚ) : ℕ :=
  firstSatisfying (fun x => decide (t - x < -tol)) ts

/-- `boyle::math::nearestUpperElement` (Arithmetic overload, `utils.hpp`),
returned as an index into the list (the C++ returns an iterator). -/
def nearestUpperElement (ts : List ℚ) (t : ℚ) (tol : ℚ := kEpsilon) : ℕ :=
  if ts.length < 2 then (if t < ts.headD 0 then 0 else ts.length)
  else if |t - ts.headD 0| < tol then 1
  else if |t - (ts.getLast?.getD 0)| < tol then ts.length - 1
  else upperBoundIdx ts t tol

/-- `std::lower_bound` (default comparator): index of the first element that is
not less than `v`. -/
def lowerBoundIdx (ts : List ℚ) (v : ℚ) : ℕ :=
  firstSatisfying (fun x => decide (¬ x < v)) ts

/-- Sum of `g i` for `a ≤ i < b`, used to embed the `for` accumulation loops. -/
def sumIdx (g : ℕ → ℚ) (a b : ℕ) : ℚ := ((List.range (b - a)).map (fun k => g (a + k))).sum

/-- `boyle::math::Vec2<double>` from `vec2.hpp`. -/
structure Vec2q where
  x : ℚ
  y : ℚ
deriving DecidableEq

namespace Vec2q

/-- `Vec2::operator+`. -/
instance : Add Vec2q := ⟨fun a b => ⟨a.x + b.x, a.y + b.y⟩⟩

/-- `Vec2::operator-` (binary). -/
instance : Sub Vec2q := ⟨fun a b => ⟨a.x - b.x, a.y - b.y⟩⟩

/-- `Vec2::operator*` by a scalar factor on the right. -/
instance : HMul Vec2q ℚ Vec2q := ⟨fun a c => ⟨a.x * c, a.y * c⟩⟩

/-- `Vec2::operator/` by a scalar denominator. -/
instance : HDiv Vec2q ℚ Vec2q := ⟨fun a c => ⟨a.x / c, a.y / c⟩⟩

/-- `Vec2::dot`. -/
def dot (a b : Vec2q) : ℚ := a.x * b.x + a.y * b.y

/-- `Vec2::crossProj`: `x * obj.y - y * obj.x`. -/
def crossProj (a b : Vec2q) : ℚ := a.x * b.y - a.y * b.x

/-- `Vec2::rotateHalfPi`: `(-y, x)`. -/
def rotateHalfPi (a : Vec2q) : Vec2q := ⟨-a.y, a.x⟩

/-- `Vec2::euclideanSqr`. -/
def euclideanSqr (a : Vec2q) : ℚ := a.x * a.x + a.y * a.y

/-- `Vec2::euclidean` = `std::hypot(x, y)`, embedded via `ratSqrt`. -/
def euclidean (a : Vec2q) : ℚ := ratSqrt (a.x * a.x + a.y * a.y)

/-- `Vec2::normalized`: `*this / euclidean()`. -/
def normalized (a : Vec2q) : Vec2q := a / a.euclidean

/-- `Vec2::euclideanTo`: `std::hypot(x - obj.x, y - obj.y)`. -/
def euclideanTo (a b : Vec2q) : ℚ := ratSqrt ((a.x - b.x) * (a.x - b.x) + (a.y - b.y) * (a.y - b.y))

/-- `boyle::math::lerp` instantiated at `Vec2`. -/
def lerp (start stop : Vec2q) (ratio : ℚ) : Vec2q := start * (1 - ratio) + stop * ratio

end Vec2q

/-- `boyle::math::Vec3<double>` from `vec3.hpp`.  The header itself is not in
the provided sources; modelled from the spec's Value Algebra contract
(`+,-,*,/` by scalar, `dot`, `cross`, `normalized`, `euclideanTo`) and the
usage in `vec3_test.cpp`. -/
structure Vec3q where
  x : ℚ
  y : ℚ
  z : ℚ
deriving DecidableEq

namespace Vec3q

/-- Componentwise difference. -/
instance : Sub Vec3q := ⟨fun a b => ⟨a.x - b.x, a.y - b.y, a.z - b.z⟩⟩

/-- Scalar multiple on the right. -/
instance : HMul Vec3q ℚ Vec3q := ⟨fun a c => ⟨a.x * c, a.y * c, a.z * c⟩⟩

/-- Scalar denominator. -/
instance : HDiv Vec3q ℚ Vec3q := ⟨fun a c => ⟨a.x / c, a.y / c, a.z / c⟩⟩

/-- Cross product. -/
def cross (a b : Vec3q) : Vec3q :=
  ⟨a.y * b.z - a.z * b.y, a.z * b.x - a.x * b.z, a.x * b.y - a.y * b.x⟩

/-- Euclidean norm via `ratSqrt`. -/
def euclidean (a : Vec3q) : ℚ := ratSqrt (a.x * a.x + a.y * a.y + a.z * a.z)

/-- `normalized`: the vector divided by its norm. -/
def normalized (a : Vec3q) : Vec3q := a / a.euclidean

end Vec3q

/-- `boyle::math::PiecewiseLinearFunction1<double>`: breakpoints `m_ts` and
samples `m_ys`. -/
structure PiecewiseLinearFunction1 where
  ts : List ℚ
  ys : List ℚ
deriving DecidableEq

namespace PiecewiseLinearFunction1

/-- `PiecewiseLinearFunction1::eval`. -/
def eval (f : PiecewiseLinearFunction1) (t : ℚ) : ℚ :=
  let pos := nearestUpperElement f.ts t
  if pos = 0 then
    lerp (f.ys.getD 0 0) (f.ys.getD 1 0) ((t - f.ts.getD 0 0) / (f.ts.getD 1 0 - f.ts.getD 0 0))
  else if pos = f.ts.length then
    lerp (f.ys.getD (pos-1) 0) (f.ys.getD (pos-2) 0)
      ((t - f.ts.getD (pos-1) 0) / (f.ts.getD (pos-2) 0 - f.ts.getD (pos-1) 0))
  else
    lerp (f.ys.getD (pos-1) 0) (f.ys.getD pos 0)
      ((t - f.ts.getD (pos-1) 0) / (f.ts.getD pos 0 - f.ts.getD (pos-1) 0))

/-- `PiecewiseLinearFunction1::derivative` (first order). -/
def derivative (f : PiecewiseLinearFunction1) (t : ℚ) : ℚ :=
  let pos := nearestUpperElement f.ts t
  if pos = 0 then
    (f.ys.getD 1 0 - f.ys.getD 0 0) / (f.ts.getD 1 0 - f.ts.getD 0 0)
  else if pos = f.ts.length then
    (f.ys.getD (pos-1) 0 - f.ys.getD (pos-2) 0) / (f.ts.getD (pos-1) 0 - f.ts.getD (pos-2) 0)
  else
    (f.ys.getD pos 0 - f.ys.getD (pos-1) 0) / (f.ts.getD pos 0 - f.ts.getD (pos-1) 0)

/-- `PiecewiseLinearFunction1::integral` (trapezoidal rule with swapped-bound
negation). -/
def integral (f : PiecewiseLinearFunction1) (lowerBound upperBound : ℚ) : ℚ :=
  let sign : ℚ := if lowerBound > upperBound then -1 else 1
  let lb := if lowerBound > upperBound then upperBound else lowerBound
  let ub := if lowerBound > upperBound then lowerBound else upperBound
  let size := f.ts.length
  let istart := lowerBoundIdx f.ts lb
  let iend := lowerBoundIdx f.ts ub
  if istart = size ∨ iend = 0 ∨ istart = iend then
    (f.eval lb + f.eval ub) * (ub - lb) * (1/2) * sign
  else
    ((f.eval lb + f.ys.getD istart 0) * (f.ts.getD istart 0 - lb) * (1/2) +
      sumIdx (fun i => (f.ys.getD i 0 + f.ys.getD (i+1) 0) *
        (f.ts.getD (i+1) 0 - f.ts.getD i 0) * (1/2)) istart (iend - 1) +
      (f.ys.getD (iend-1) 0 + f.eval ub) * (ub - f.ts.getD (iend-1) 0) * (1/2)) * sign

/-- `PiecewiseLinearFunction1::minT`. -/
def minT (f : PiecewiseLinearFunction1) : ℚ := f.ts.headD 0

/-- `PiecewiseLinearFunction1::maxT`. -/
def maxT (f : PiecewiseLinearFunction1) : ℚ := f.ts.getLast?.getD 0

end PiecewiseLinearFunction1

/-- The validating constructor of `PiecewiseLinearFunction1` under
`BOYLE_CHECK_PARAMS == 1`; each `throw` becomes an `Except.error`. -/
def mkPiecewiseLinearFunction1 (ts ys : List ℚ) : Except String PiecewiseLinearFunction1 :=
  if ts.length < 2 ∨ ys.length < 2 then .error "sizes of ts, ys must be greater than 2"
  else if ts.length ≠ ys.length then .error "ts, ys must share the same size"
  else if ¬ isSortedB ts then .error "ts has to be a sorted array"
  else if hasDuplicates ts kEpsilon then .error "ts can not have duplicated elements"
  else .ok ⟨ts, ys⟩

/-- `PiecewiseCubicFunction1::TridiagonalMatrix` (the three diagonals as index
functions; the C++ stores them as vectors whose size fixes `mat_size`, which
here is passed explicitly to `luDcmp`). -/
structure TridiagonalMatrix where
  a_low : ℕ → ℚ
  a_diag : ℕ → ℚ
  a_up : ℕ → ℚ

namespace TridiagonalMatrix

/-- Forward-elimination pivots `u0` of `TridiagonalMatrix::luDcmp`:
`u0[0] = a_diag[0]`, `u0[i] = a_diag[i] - l1[i-1] * u1[i-1]` with
`l1[i] = a_low[i] / u0[i]` (the last row uses the same formula). -/
def u0 (A : TridiagonalMatrix) : ℕ → ℚ
  | 0 => A.a_diag 0
  | i+1 => A.a_diag (i+1) - (A.a_low i / A.u0 i) * A.a_up i

/-- Unit-lower-triangular multipliers `l1[i] = a_low[i] / u0[i]`. -/
def l1 (A : TridiagonalMatrix) (i : ℕ) : ℚ := A.a_low i / A.u0 i

/-- Forward substitution of `luDcmp`: `x[0] = b[0]`,
`x[i] = b[i] - l1[i-1] * x[i-1]` (the vector `x` before back substitution). -/
def luFwd (A : TridiagonalMatrix) (b : ℕ → ℚ) : ℕ → ℚ
  | 0 => b 0
  | i+1 => b (i+1) - A.l1 i * A.luFwd b i

/-- Back substitution of `luDcmp`, indexed from the last row: argument `k`
stands for row `n-1-k`.  `x[n-1] = x[n-1] / u0[n-1]`,
`x[i] = (x[i] - u1[i] * x[i+1]) / u0[i]`. -/
def luBwd (A : TridiagonalMatrix) (b : ℕ → ℚ) (n : ℕ) : ℕ → ℚ
  | 0 => A.luFwd b (n-1) / A.u0 (n-1)
  | k+1 => (A.luFwd b (n-2-k) - A.a_up (n-2-k) * A.luBwd b n k) / A.u0 (n-2-k)

/-- `TridiagonalMatrix::luDcmp`: the solution entry `x[i]` for a system of
`mat_size = n` rows. -/
def luDcmp (A : TridiagonalMatrix) (b : ℕ → ℚ) (n : ℕ) (i : ℕ) : ℚ := A.luBwd b n (n-1-i)

/-- Row `i` of the tridiagonal matrix-vector product `A·x` for an `n`-row
system (row 0 and row `n-1` have no lower / upper neighbour). -/
def mulVec (A : TridiagonalMatrix) (n : ℕ) (x : ℕ → ℚ) (i : ℕ) : ℚ :=
  (if i = 0 then 0 else A.a_low (i-1) * x (i-1)) + A.a_diag i * x i +
    (if i = n-1 then 0 else A.a_up i * x (i+1))

end TridiagonalMatrix

/-- `PiecewiseCubicFunction1::PeriodicTridiagonalMatrix`: three diagonals plus
the two wrap-around corner coefficients (`a_bottom` in row `n-1`, column 0;
`a_top` in row 0, column `n-1`). -/
structure PeriodicTridiagonalMatrix where
  a_bottom : ℚ
  a_low : ℕ → ℚ
  a_diag : ℕ → ℚ
  a_up : ℕ → ℚ
  a_top : ℚ

namespace PeriodicTridiagonalMatrix

/-- The underlying plain tridiagonal part, whose `u0`/`l1` recurrences the
periodic `luDcmp` shares for rows `0 … mat_size-2`. -/
def tri (A : PeriodicTridiagonalMatrix) : TridiagonalMatrix :=
  ⟨A.a_low, A.a_diag, A.a_up⟩

/-- Last-column correction vector `u_top` of the periodic `luDcmp`:
`u_top[0] = a_top`, `u_top[i] = -l1[i-1] * u_top[i-1]`. -/
def uTop (A : PeriodicTridiagonalMatrix) : ℕ → ℚ
  | 0 => A.a_top
  | i+1 => -(A.tri.l1 i) * A.uTop i

/-- Last-row correction vector `l_bottom` of the periodic `luDcmp`:
`l_bottom[0] = a_bottom / u0[0]`,
`l_bottom[i] = -l_bottom[i-1] * u1[i-1] / u0[i]`. -/
def lBottom (A : PeriodicTridiagonalMatrix) : ℕ → ℚ
  | 0 => A.a_bottom / A.tri.u0 0
  | i+1 => -(A.lBottom i) * A.a_up i / A.tri.u0 (i+1)

/-- Final pivot of the periodic `luDcmp`:
`u0[n-1] = a_diag[n-1] - l1[n-2]*u1[n-2] - Σ_{i<n-2} l_bottom[i]*u_top[i]`. -/
def u0Last (A : PeriodicTridiagonalMatrix) (n : ℕ) : ℚ :=
  A.a_diag (n-1) - A.tri.l1 (n-2) * A.a_up (n-2) -
    sumIdx (fun i => A.lBottom i * A.uTop i) 0 (n-2)

/-- Last entry after the periodic forward substitution:
`x[n-1] -= Σ_{i<n-2} l_bottom[i]*x[i]` applied to the plain forward sweep. -/
def yLast (A : PeriodicTridiagonalMatrix) (b : ℕ → ℚ) (n : ℕ) : ℚ :=
  A.tri.luFwd b (n-1) - sumIdx (fun i => A.lBottom i * A.tri.luFwd b i) 0 (n-2)

/-- Back substitution of the periodic `luDcmp`, indexed from the last row
(argument `k` stands for row `n-1-k`):
`x[n-1] = x[n-1]/u0[n-1]`, `x[n-2] = (x[n-2] - u1[n-2]*x[n-1])/u0[n-2]`,
`x[i] = (x[i] - u1[i]*x[i+1] - u_top[i]*x[n-1])/u0[i]` for `i ≤ n-3`. -/
def luBwd (A : PeriodicTridiagonalMatrix) (b : ℕ → ℚ) (n : ℕ) : ℕ → ℚ
  | 0 => A.yLast b n / A.u0Last n
  | 1 => (A.tri.luFwd b (n-2) - A.a_up (n-2) * A.luBwd b n 0) / A.tri.u0 (n-2)
  | k+2 => (A.tri.luFwd b (n-3-k) - A.a_up (n-3-k) * A.luBwd b n (k+1) -
      A.uTop (n-3-k) * A.luBwd b n 0) / A.tri.u0 (n-3-k)

/-- `PeriodicTridiagonalMatrix::luDcmp`: solution entry `x[i]` for an
`n`-row periodic system. -/
def luDcmp (A : PeriodicTridiagonalMatrix) (b : ℕ → ℚ) (n : ℕ) (i : ℕ) : ℚ :=
  A.luBwd b n (n-1-i)

/-- Row `i` of the periodic tridiagonal matrix-vector product, with the two
corner coefficients linking the first and last rows. -/
def mulVec (A : PeriodicTridiagonalMatrix) (n : ℕ) (x : ℕ → ℚ) (i : ℕ) : ℚ :=
  (if i = 0 then A.a_top * x (n-1) else A.a_low (i-1) * x (i-1)) + A.a_diag i * x i +
    (if i = n-1 then A.a_bottom * x 0 else A.a_up i * x (i+1))

end PeriodicTridiagonalMatrix

/-- Modelled from the spec: `boyle::math::cuberp` (from the absent header
`cubic_interpolation.hpp`) — the "cubic Hermite-style formula parameterized by
segment width, endpoint values, and endpoint second derivatives" (§4.3); the
unique cubic with values `y0`, `y1` and second derivatives `ddy0`, `ddy1` at
`ratio = 0, 1` on a segment of width `h`. -/
def cuberp (y0 y1 ddy0 ddy1 ratio h : ℚ) : ℚ :=
  lerp y0 y1 ratio +
    (((1 - ratio)^3 - (1 - ratio)) * ddy0 + (ratio^3 - ratio) * ddy1) * h^2 / 6

/-- Modelled from the spec: `boyle::math::cuberpd` (from the absent header
`cubic_interpolation.hpp`) — derivative of `cuberp` with respect to the
parameter `t = t0 + ratio * h`. -/
def cuberpd (y0 y1 ddy0 ddy1 ratio h : ℚ) : ℚ :=
  (y1 - y0) / h + ((1 - 3*(1 - ratio)^2) * ddy0 + (3*ratio^2 - 1) * ddy1) * h / 6

/-- `boyle::math::PiecewiseCubicFunction1<double>`: breakpoints `m_ts`,
samples `m_ys` and the derived second-derivative array `m_ddys`. -/
structure PiecewiseCubicFunction1 where
  ts : List ℚ
  ys : List ℚ
  ddys : List ℚ
deriving DecidableEq

namespace PiecewiseCubicFunction1

/-- `PiecewiseCubicFunction1::eval` (with the `kFactors = (-1/3, -1/6)`
extrapolation rays outside the breakpoint range). -/
def eval (f : PiecewiseCubicFunction1) (t : ℚ) : ℚ :=
  let pos := nearestUpperElement f.ts t
  if pos = 0 then
    let h := f.ts.getD 1 0 - f.ts.getD 0 0
    let ratio := (t - f.ts.getD 0 0) / h
    lerp (f.ys.getD 0 0) (f.ys.getD 1 0) ratio +
      (f.ddys.getD 0 0 * (-(1/3)) + f.ddys.getD 1 0 * (-(1/6))) * (t - f.ts.getD 0 0) * h
  else if pos = f.ts.length then
    let h := f.ts.getD (pos-2) 0 - f.ts.getD (pos-1) 0
    let ratio := (t - f.ts.getD (pos-1) 0) / h
    lerp (f.ys.getD (pos-1) 0) (f.ys.getD (pos-2) 0) ratio +
      (f.ddys.getD (pos-1) 0 * (-(1/3)) + f.ddys.getD (pos-2) 0 * (-(1/6))) *
        (t - f.ts.getD (pos-1) 0) * h
  else
    let h := f.ts.getD pos 0 - f.ts.getD (pos-1) 0
    let ratio := (t - f.ts.getD (pos-1) 0) / (f.ts.getD pos 0 - f.ts.getD (pos-1) 0)
    cuberp (f.ys.getD (pos-1) 0) (f.ys.getD pos 0) (f.ddys.getD (pos-1) 0)
      (f.ddys.getD pos 0) ratio h

/-- `PiecewiseCubicFunction1::derivative2` (private; second derivative). -/
def derivative2 (f : PiecewiseCubicFunction1) (t : ℚ) : ℚ :=
  let pos := nearestUpperElement f.ts t
  if pos = 0 then 0
  else if pos = f.ts.length then 0
  else
    lerp (f.ddys.getD (pos-1) 0) (f.ddys.getD pos 0)
      ((t - f.ts.getD (pos-1) 0) / (f.ts.getD pos 0 - f.ts.getD (pos-1) 0))

/-- `PiecewiseCubicFunction1::derivative3` (private; third derivative). -/
def derivative3 (f : PiecewiseCubicFunction1) (t : ℚ) : ℚ :=
  let pos := nearestUpperElement f.ts t
  if pos = 0 then 0
  else if pos = f.ts.length then 0
  else
    (f.ddys.getD pos 0 - f.ddys.getD (pos-1) 0) / (f.ts.getD pos 0 - f.ts.getD (pos-1) 0)

/-- `PiecewiseCubicFunction1::derivative` (first order, with the boundary
extrapolation slopes). -/
def derivative (f : PiecewiseCubicFunction1) (t : ℚ) : ℚ :=
  let pos := nearestUpperElement f.ts t
  if pos = 0 then
    let h := f.ts.getD 1 0 - f.ts.getD 0 0
    (f.ys.getD 1 0 - f.ys.getD 0 0) / h +
      (f.ddys.getD 0 0 * (-(1/3)) + f.ddys.getD 1 0 * (-(1/6))) * h
  else if pos = f.ts.length then
    let h := f.ts.getD (pos-2) 0 - f.ts.getD (pos-1) 0
    (f.ys.getD (pos-2) 0 - f.ys.getD (pos-1) 0) / h +
      (f.ddys.getD (pos-1) 0 * (-(1/3)) + f.ddys.getD (pos-2) 0 * (-(1/6))) * h
  else
    let h := f.ts.getD pos 0 - f.ts.getD (pos-1) 0
    let ratio := (t - f.ts.getD (pos-1) 0) / h
    cuberpd (f.ys.getD (pos-1) 0) (f.ys.getD pos 0) (f.ddys.getD (pos-1) 0)
      (f.ddys.getD pos 0) ratio h

/-- `PiecewiseCubicFunction1::derivative(t, order)` dispatch (orders 1, 2, 3). -/
def derivativeN (f : PiecewiseCubicFunction1) (t : ℚ) (order : ℕ) : ℚ :=
  if order = 1 then f.derivative t
  else if order = 2 then f.derivative2 t
  else f.derivative3 t

/-- `PiecewiseCubicFunction1::integral` (closed-form cubic antiderivatives
with `kFactor = -1/24`, and the same swapped-bound negation as the linear
variant). -/
def integral (f : PiecewiseCubicFunction1) (lowerBound upperBound : ℚ) : ℚ :=
  let sign : ℚ := if lowerBound > upperBound then -1 else 1
  let lb := if lowerBound > upperBound then upperBound else lowerBound
  let ub := if lowerBound > upperBound then lowerBound else upperBound
  let size := f.ts.length
  let istart := lowerBoundIdx f.ts lb
  let iend := lowerBoundIdx f.ts ub
  if istart = size ∨ iend = 0 ∨ istart = iend then
    (f.eval lb + f.eval ub) * (ub - lb) * (1/2) * sign
  else
    ((f.eval lb + f.ys.getD istart 0) * (f.ts.getD istart 0 - lb) * (1/2) +
      (f.derivative2 lb + f.ddys.getD istart 0) *
        (f.ts.getD istart 0 - lb)^3 * (-(1/24)) +
      sumIdx (fun i =>
        (f.ys.getD i 0 + f.ys.getD (i+1) 0) * (f.ts.getD (i+1) 0 - f.ts.getD i 0) * (1/2) +
        (f.ddys.getD i 0 + f.ddys.getD (i+1) 0) *
          (f.ts.getD (i+1) 0 - f.ts.getD i 0)^3 * (-(1/24))) istart (iend - 1) +
      (f.ys.getD (iend-1) 0 + f.eval ub) * (ub - f.ts.getD (iend-1) 0) * (1/2) +
      (f.ddys.getD (iend-1) 0 + f.derivative2 ub) *
        (ub - f.ts.getD (iend-1) 0)^3 * (-(1/24))) * sign

/-- `PiecewiseCubicFunction1::minT`. -/
def minT (f : PiecewiseCubicFunction1) : ℚ := f.ts.headD 0

/-- `PiecewiseCubicFunction1::maxT`. -/
def maxT (f : PiecewiseCubicFunction1) : ℚ := f.ts.getLast?.getD 0

end PiecewiseCubicFunction1

/-- `PiecewiseCubicFunction1::BoundaryMode` (derivative order and value). -/
structure BoundaryMode where
  order : ℕ
  derivative : ℚ
deriving DecidableEq

/-- Segment widths `hs[i] = ts[i+1] - ts[i]` of the cubic constructors. -/
def pcfHs (ts : List ℚ) (i : ℕ) : ℚ := ts.getD (i+1) 0 - ts.getD i 0

/-- Segment slopes `ds[i] = (ys[i+1] - ys[i]) / hs[i]` of the cubic
constructors. -/
def pcfDs (ts ys : List ℚ) (i : ℕ) : ℚ := (ys.getD (i+1) 0 - ys.getD i 0) / pcfHs ts i

/-- The banded system assembled by the non-periodic cubic constructor
(interior rows `2(h_i + h_{i-1})·x_i`-style, boundary rows per the boundary
modes) together with its right-hand side. -/
def pcfSystem (ts ys : List ℚ) (b0 bf : BoundaryMode) :
    TridiagonalMatrix × (ℕ → ℚ) :=
  let size := ts.length
  let aLow : ℕ → ℚ := fun i =>
    if i = size - 2 then (if bf.order = 2 then 0 else 1/2) else pcfHs ts i
  let aDiag : ℕ → ℚ := fun i =>
    if i = 0 then 1 else if i = size - 1 then 1 else (pcfHs ts i + pcfHs ts (i-1)) * 2
  let aUp : ℕ → ℚ := fun i =>
    if i = 0 then (if b0.order = 2 then 0 else 1/2) else pcfHs ts i
  let bv : ℕ → ℚ := fun i =>
    if i = 0 then
      (if b0.order = 2 then b0.derivative else (pcfDs ts ys 0 - b0.derivative) * 3 / pcfHs ts 0)
    else if i = size - 1 then
      (if bf.order = 2 then bf.derivative
       else (bf.derivative - pcfDs ts ys (size-2)) * 3 / pcfHs ts (size-2))
    else (pcfDs ts ys i - pcfDs ts ys (i-1)) * 6
  (⟨aLow, aDiag, aUp⟩, bv)

/-- `m_ddys` computed by the non-periodic cubic constructor. -/
def pcfDdys (ts ys : List ℚ) (b0 bf : BoundaryMode) : List ℚ :=
  let sys := pcfSystem ts ys b0 bf
  (List.range ts.length).map (sys.1.luDcmp sys.2 ts.length)

/-- The periodic banded system assembled by the periodic cubic constructor
(`size = ts.length - 1` unknowns, wrap-around row 0, corners `hs[size-1]`). -/
def pcfPeriodicSystem (ts ys : List ℚ) : PeriodicTridiagonalMatrix × (ℕ → ℚ) :=
  let size := ts.length - 1
  let aDiag : ℕ → ℚ := fun i =>
    if i = 0 then (pcfHs ts 0 + pcfHs ts (size-1)) * 2 else (pcfHs ts i + pcfHs ts (i-1)) * 2
  let bv : ℕ → ℚ := fun i =>
    if i = 0 then (pcfDs ts ys 0 - pcfDs ts ys (size-1)) * 6
    else (pcfDs ts ys i - pcfDs ts ys (i-1)) * 6
  (⟨pcfHs ts (size-1), pcfHs ts, aDiag, pcfHs ts, pcfHs ts (size-1)⟩, bv)

/-- `m_ddys` computed by the periodic cubic constructor (solution of the
`size-1`-row periodic system with `ddys[0]` replicated into the last slot). -/
def pcfPeriodicDdys (ts ys : List ℚ) : List ℚ :=
  let size := ts.length - 1
  let sys := pcfPeriodicSystem ts ys
  ((List.range size).map (sys.1.luDcmp sys.2 size)) ++ [sys.1.luDcmp sys.2 size 0]

/-- The validating non-periodic cubic constructor under
`BOYLE_CHECK_PARAMS == 1`. -/
def mkPiecewiseCubicFunction1 (ts ys : List ℚ) (b0 bf : BoundaryMode) :
    Except String PiecewiseCubicFunction1 :=
  if ts.length < 2 ∨ ys.length < 2 then .error "sizes of ts, ys must be greater than 2"
  else if ts.length ≠ ys.length then .error "ts, ys must share the same size"
  else if ¬ isSortedB ts then .error "ts has to be a sorted array"
  else if hasDuplicates ts kEpsilon then .error "ts can not have duplicated elements"
  else if b0.order = 0 ∨ b0.order > 2 then .error "the derivative order of b0 can only be 1, 2"
  else if bf.order = 0 ∨ bf.order > 2 then .error "the derivative order of bf can only be 1, 2"
  else .ok ⟨ts, ys, pcfDdys ts ys b0 bf⟩

/-- The validating periodic cubic constructor under `BOYLE_CHECK_PARAMS == 1`. -/
def mkPiecewiseCubicFunction1Periodic (ts ys : List ℚ) :
    Except String PiecewiseCubicFunction1 :=
  if ts.length < 2 ∨ ys.length < 2 then .error "sizes of ts, ys must be greater than 2"
  else if ts.length ≠ ys.length then .error "ts, ys must share the same size"
  else if ¬ isSortedB ts then .error "ts has to be a sorted array"
  else if hasDuplicates ts kEpsilon then .error "ts can not have duplicated elements"
  else if |ys.headD 0 - ys.getLast?.getD 0| > kEpsilon then
    .error "periodic boundary condition requires equal front and back samples"
  else .ok ⟨ts, ys, pcfPeriodicDdys ts ys⟩

/-- `boyle::math::SlDuplet<double>`: an (arc length, lateral offset) pair. -/
structure SlDuplet where
  s : ℚ
  l : ℚ
deriving DecidableEq

/-- `boyle::math::SlvTriplet<double>`: (arc length, lateral, vertical). -/
structure SlvTriplet where
  s : ℚ
  l : ℚ
  v : ℚ
deriving DecidableEq

instance : Inhabited Vec2q := ⟨⟨0, 0⟩⟩

instance : Inhabited Vec3q := ⟨⟨0, 0, 0⟩⟩

/-- The running minimum-distance scan of the `VecArithmetic` overload of
`nearestUpperElement`: first index attaining the least `euclideanTo` distance
(`none` models the `std::numeric_limits<double>::max()` start). -/
def vecArgminAux (p : Vec2q) : List Vec2q → ℕ → Option (ℕ × ℚ) → ℕ
  | [], _, best => (best.map Prod.fst).getD 0
  | q :: rest, i, best =>
    match best with
    | none => vecArgminAux p rest (i+1) (some (i, p.euclideanTo q))
    | some (j, m) =>
      if p.euclideanTo q < m then vecArgminAux p rest (i+1) (some (i, p.euclideanTo q))
      else vecArgminAux p rest (i+1) (some (j, m))

/-- Index of the nearest anchor point (first minimiser, as in the C++ loop). -/
def vecArgmin (pts : List Vec2q) (p : Vec2q) : ℕ := vecArgminAux p pts 0 none

/-- `boyle::math::nearestUpperElement` (`VecArithmetic` overload,
`utils.hpp`): nearest anchor by linear scan, then a dot-product sign test
against the adjacent segment, returned as an index (the C++ returns an
iterator; `range.end()` becomes index `pts.length`). -/
def vecNearestUpperElement (pts : List Vec2q) (p : Vec2q) (tol : ℚ := kEpsilon) : ℕ :=
  if pts.length < 2 then 0
  else
    let pos := vecArgmin pts p
    if pos = 0 then
      let diff := pts.getD 1 default - pts.getD 0 default
      let r := p - pts.getD 0 default
      if diff.dot r < -tol then 0 else 1
    else if pos = pts.length - 1 then
      let diff := pts.getD (pts.length - 2) default - pts.getD (pts.length - 1) default
      let r := p - pts.getD (pts.length - 1) default
      if diff.dot r < -tol then pts.length else pts.length - 1
    else
      let diff := pts.getD (pos + 1) default - pts.getD pos default
      let r := p - pts.getD pos default
      if diff.dot r < -tol then pos else pos + 1

/-- `boyle::math::PiecewiseLinearCurve<Vec2d>`: the stored
`m_vec_of_s` interpolant exposed through `arcLengths()` (its `ts`) and
`anchorPoints()` (its `ys`). -/
structure PiecewiseLinearCurve2 where
  arcLengths : List ℚ
  anchorPoints : List Vec2q
deriving DecidableEq

/-- Tail of the cumulative arc-length computation of the curve constructor:
`arc_lengths[i] = arc_lengths[i-1] + anchor_points[i].euclideanTo(anchor_points[i-1])`. -/
def arcAux (s : ℚ) (prev : Vec2q) : List Vec2q → List ℚ
  | [] => []
  | q :: rest => (s + q.euclideanTo prev) :: arcAux (s + q.euclideanTo prev) q rest

/-- The arc-length breakpoints derived by the curve constructor
(`arc_lengths[0] = s0` plus cumulative Euclidean distances). -/
def cumulativeArcLengths (pts : List Vec2q) (s0 : ℚ) : List ℚ :=
  match pts with
  | [] => []
  | p :: rest => s0 :: arcAux s0 p rest

/-- The validating curve constructor under `BOYLE_CHECK_PARAMS == 1`: its own
`size < 2` check, then the checks of the inner `PiecewiseLinearFunction1`
constructor applied to the derived arc lengths. -/
def mkPiecewiseLinearCurve2 (pts : List Vec2q) (s0 : ℚ) :
    Except String PiecewiseLinearCurve2 :=
  if pts.length < 2 then .error "sizes of anchor points must be greater than 2"
  else
    let arcs := cumulativeArcLengths pts s0
    if arcs.length < 2 ∨ pts.length < 2 then .error "sizes of ts, ys must be greater than 2"
    else if arcs.length ≠ pts.length then .error "ts, ys must share the same size"
    else if ¬ isSortedB arcs then .error "ts has to be a sorted array"
    else if hasDuplicates arcs kEpsilon then .error "ts can not have duplicated elements"
    else .ok ⟨arcs, pts⟩

namespace PiecewiseLinearCurve2

/-- `PiecewiseLinearCurve::minS`. -/
def minS (c : PiecewiseLinearCurve2) : ℚ := c.arcLengths.headD 0

/-- `PiecewiseLinearCurve::maxS`. -/
def maxS (c : PiecewiseLinearCurve2) : ℚ := c.arcLengths.getLast?.getD 0

/-- `PiecewiseLinearCurve::process` (private helper): interpolated value plus
the segment difference and the sign-disambiguating second difference, with
every array access made explicit (`none` = out-of-bounds read). -/
def process? (c : PiecewiseLinearCurve2) (pos : ℕ) (ratio : ℚ) :
    Option (Vec2q × Vec2q × Vec2q) := do
  let am2 ← c.arcLengths.get? (pos - 2)
  let am1 ← c.arcLengths.get? (pos - 1)
  let a ← c.arcLengths.get? pos
  let pm2 ← c.anchorPoints.get? (pos - 2)
  let pm1 ← c.anchorPoints.get? (pos - 1)
  let p ← c.anchorPoints.get? pos
  let val := Vec2q.lerp pm1 p ratio
  let diff := p - pm1
  let diff2 := (p - pm1) / (a - am1) - (pm1 - pm2) / (am1 - am2)
  return (val, diff, diff2)

/-- `PiecewiseLinearCurve::eval(s, l)` (2D lateral-offset evaluation), with
every array access made explicit (`none` = out-of-bounds read). -/
def evalSl? (c : PiecewiseLinearCurve2) (s l : ℚ) : Option Vec2q :=
  let arcs := c.arcLengths
  let pts := c.anchorPoints
  let n := arcs.length
  let pos := nearestUpperElement arcs s
  if pos < 2 then do
    let a0 ← arcs.get? 0
    let a1 ← arcs.get? 1
    let a2 ← arcs.get? 2
    let p0 ← pts.get? 0
    let p1 ← pts.get? 1
    let p2 ← pts.get? 2
    let ratio := (s - a0) / (a1 - a0)
    let val := Vec2q.lerp p0 p1 ratio
    let diff := p1 - p0
    let diff2 := (p2 - p1) / (a2 - a1) - (p1 - p0) / (a1 - a0)
    let normal := diff.rotateHalfPi.normalized * (if diff.crossProj diff2 > 0 then (1:ℚ) else -1)
    return val + normal * l
  else if pos = n then do
    let an1 ← arcs.get? (n-1)
    let an2 ← arcs.get? (n-2)
    let an3 ← arcs.get? (n-3)
    let pn1 ← pts.get? (n-1)
    let pn2 ← pts.get? (n-2)
    let pn3 ← pts.get? (n-3)
    let ratio := (s - an1) / (an2 - an1)
    let val := Vec2q.lerp pn1 pn2 ratio
    let diff := pn1 - pn2
    let diff2 := (pn1 - pn2) / (an1 - an2) - (pn2 - pn3) / (an2 - an3)
    let normal := diff.rotateHalfPi.normalized * (if diff.crossProj diff2 > 0 then (1:ℚ) else -1)
    return val + normal * l
  else do
    let am1 ← arcs.get? (pos - 1)
    let a ← arcs.get? pos
    let ratio := (s - am1) / (a - am1)
    let vdd ← c.process? pos ratio
    let normal := vdd.2.1.rotateHalfPi.normalized *
      (if vdd.2.1.crossProj vdd.2.2 > 0 then (1:ℚ) else -1)
    return vdd.1 + normal * l

/-- `PiecewiseLinearCurve::normal` (2D), with explicit array accesses. -/
def normal? (c : PiecewiseLinearCurve2) (s : ℚ) : Option Vec2q :=
  let arcs := c.arcLengths
  let pts := c.anchorPoints
  let n := arcs.length
  let pos := nearestUpperElement arcs s
  if pos < 2 then do
    let a0 ← arcs.get? 0
    let a1 ← arcs.get? 1
    let a2 ← arcs.get? 2
    let p0 ← pts.get? 0
    let p1 ← pts.get? 1
    let p2 ← pts.get? 2
    let diff := p1 - p0
    let diff2 := (p2 - p1) / (a2 - a1) - (p1 - p0) / (a1 - a0)
    return diff.rotateHalfPi.normalized * (if diff.crossProj diff2 > 0 then (1:ℚ) else -1)
  else if pos = n then do
    let an1 ← arcs.get? (n-1)
    let an2 ← arcs.get? (n-2)
    let an3 ← arcs.get? (n-3)
    let pn1 ← pts.get? (n-1)
    let pn2 ← pts.get? (n-2)
    let pn3 ← pts.get? (n-3)
    let diff := pn1 - pn2
    let diff2 := (pn1 - pn2) / (an1 - an2) - (pn2 - pn3) / (an2 - an3)
    return diff.rotateHalfPi.normalized * (if diff.crossProj diff2 > 0 then (1:ℚ) else -1)
  else do
    let am1 ← arcs.get? (pos - 1)
    let a ← arcs.get? pos
    let ratio := (s - am1) / (a - am1)
    let vdd ← c.process? pos ratio
    return vdd.2.1.rotateHalfPi.normalized *
      (if vdd.2.1.crossProj vdd.2.2 > 0 then (1:ℚ) else -1)

/-- `PiecewiseLinearCurve::inverse(point)` (2D, full-range overload), with
explicit array accesses. -/
def inverse? (c : PiecewiseLinearCurve2) (point : Vec2q) : Option SlDuplet :=
  let arcs := c.arcLengths
  let pts := c.anchorPoints
  let n := pts.length
  let pos := vecNearestUpperElement pts point
  if pos < 2 then do
    let a0 ← arcs.get? 0
    let a1 ← arcs.get? 1
    let a2 ← arcs.get? 2
    let p0 ← pts.get? 0
    let p1 ← pts.get? 1
    let p2 ← pts.get? 2
    let r := point - p0
    let diff := p1 - p0
    let diff2 := (p2 - p1) / (a2 - a1) - (p1 - p0) / (a1 - a0)
    let tangent := diff.normalized
    let normal := diff.rotateHalfPi.normalized * (if diff.crossProj diff2 > 0 then (1:ℚ) else -1)
    return ⟨a0 + r.dot tangent, r.dot normal⟩
  else if pos = n then do
    let an1 ← arcs.get? (n-1)
    let an2 ← arcs.get? (n-2)
    let an3 ← arcs.get? (n-3)
    let pn1 ← pts.get? (n-1)
    let pn2 ← pts.get? (n-2)
    let pn3 ← pts.get? (n-3)
    let r := point - pn1
    let diff := pn1 - pn2
    let diff2 := (pn1 - pn2) / (an1 - an2) - (pn2 - pn3) / (an2 - an3)
    let tangent := diff.normalized
    let normal := diff.rotateHalfPi.normalized * (if diff.crossProj diff2 > 0 then (1:ℚ) else -1)
    return ⟨an1 + r.dot tangent, r.dot normal⟩
  else do
    let pm1 ← pts.get? (pos - 1)
    let am1 ← arcs.get? (pos - 1)
    let r := point - pm1
    let vdd ← c.process? pos 0
    let tangent := vdd.2.1.normalized
    let normal := vdd.2.1.rotateHalfPi.normalized *
      (if vdd.2.1.crossProj vdd.2.2 > 0 then (1:ℚ) else -1)
    return ⟨am1 + r.dot tangent, r.dot normal⟩

end PiecewiseLinearCurve2

/-- `boyle::math::PiecewiseLinearCurve<Vec3d>` (arc lengths and 3D anchors). -/
structure PiecewiseLinearCurve3 where
  arcLengths : List ℚ
  anchorPoints : List Vec3q
deriving DecidableEq

namespace PiecewiseLinearCurve3

/-- `PiecewiseLinearCurve::binormal` (3D), with explicit array accesses. -/
def binormal? (c : PiecewiseLinearCurve3) (s : ℚ) : Option Vec3q :=
  let arcs := c.arcLengths
  let pts := c.anchorPoints
  let n := arcs.length
  let pos := nearestUpperElement arcs s
  if pos < 2 then do
    let a0 ← arcs.get? 0
    let a1 ← arcs.get? 1
    let a2 ← arcs.get? 2
    let p0 ← pts.get? 0
    let p1 ← pts.get? 1
    let p2 ← pts.get? 2
    let diff := p1 - p0
    let diff2 := (p2 - p1) / (a2 - a1) - (p1 - p0) / (a1 - a0)
    return (diff.cross diff2).normalized
  else if pos = n then do
    let an1 ← arcs.get? (n-1)
    let an2 ← arcs.get? (n-2)
    let an3 ← arcs.get? (n-3)
    let pn1 ← pts.get? (n-1)
    let pn2 ← pts.get? (n-2)
    let pn3 ← pts.get? (n-3)
    let diff := pn1 - pn2
    let diff2 := (pn1 - pn2) / (an1 - an2) - (pn2 - pn3) / (an2 - an3)
    return (diff.cross diff2).normalized
  else do
    let am2 ← arcs.get? (pos - 2)
    let am1 ← arcs.get? (pos - 1)
    let a ← arcs.get? pos
    let pm2 ← pts.get? (pos - 2)
    let pm1 ← pts.get? (pos - 1)
    let p ← pts.get? pos
    let diff := p - pm1
    let diff2 := (p - pm1) / (a - am1) - (pm1 - pm2) / (am1 - am2)
    return (diff.cross diff2).normalized

end PiecewiseLinearCurve3

/-- The concrete periodic system used against the periodic solver: diagonal 4,
off-diagonals 1, corner coefficients 1 (3 rows). -/
def perA : PeriodicTridiagonalMatrix := ⟨1, fun _ => 1, fun _ => 4, fun _ => 1, 1⟩

/-- Its right-hand side `(6, 0, 0)`. -/
def perB : ℕ → ℚ := fun i => if i = 0 then 6 else 0

/-- An `Except`-modelled constructor raised (`throw`) rather than returning. -/
def raises {α : Type} : Except String α → Prop
  | .error _ => True
  | .ok _ => False

/-- Three axis-aligned anchor points used by the curve witnesses. -/
def triPts : List Vec2q := [⟨0, 0⟩, ⟨1, 0⟩, ⟨1, 1⟩]

/-- The curve the constructor builds from `triPts` (arc lengths `[0, 1, 2]`). -/
def triCurve : PiecewiseLinearCurve2 := ⟨[0, 1, 2], triPts⟩

/-- Two anchor points: accepted by the curve constructor (only `size < 2` is
rejected) though the query operations then read index 2. -/
def twoPts : List Vec2q := [⟨0, 0⟩, ⟨1, 0⟩]

/-- The curve built from `twoPts` (arc lengths `[0, 1]`). -/
def twoCurve : PiecewiseLinearCurve2 := ⟨[0, 1], twoPts⟩

/-- A 3D curve with two anchors, for the `binormal` bound check. -/
def two3Curve : PiecewiseLinearCurve3 := ⟨[0, 1], [⟨0, 0, 0⟩, ⟨1, 0, 0⟩]⟩

/-- A U-shaped anchor sequence whose two arms are close to each other: the
nearest-anchor scan of `inverse` can land on the wrong arm. -/
def sqPts : List Vec2q := [⟨0, 0⟩, ⟨1, 0⟩, ⟨1, 1⟩, ⟨0, 1⟩]

/-- The curve the constructor builds from `sqPts` (arc lengths `[0,1,2,3]`). -/
def sqCurve : PiecewiseLinearCurve2 := ⟨[0, 1, 2, 3], sqPts⟩

/-- The normal the claim (C10) prescribes on the first boundary segment:
`diff = p_1 - p_0` with the turning direction `diff2` taken from the next
segment pair, the result being `diff` rotated by half pi, normalized,
multiplied by the sign of `crossProj(diff, diff2)`. -/
def firstSegmentNormal (c : PiecewiseLinearCurve2) : Vec2q :=
  let diff := c.anchorPoints.getD 1 default - c.anchorPoints.getD 0 default
  let diff2 := (c.anchorPoints.getD 2 default - c.anchorPoints.getD 1 default) /
      (c.arcLengths.getD 2 0 - c.arcLengths.getD 1 0) -
    (c.anchorPoints.getD 1 default - c.anchorPoints.getD 0 default) /
      (c.arcLengths.getD 1 0 - c.arcLengths.getD 0 0)
  diff.rotateHalfPi.normalized * (if diff.crossProj diff2 > 0 then (1:ℚ) else -1)

/-- The normal the claim (C10) prescribes on the last boundary segment:
`diff = p_{n-1} - p_{n-2}` with `diff2` taken from the previous segment
pair. -/
def lastSegmentNormal (c : PiecewiseLinearCurve2) : Vec2q :=
  let n := c.arcLengths.length
  let diff := c.anchorPoints.getD (n-1) default - c.anchorPoints.getD (n-2) default
  let diff2 := (c.anchorPoints.getD (n-1) default - c.anchorPoints.getD (n-2) default) /
      (c.arcLengths.getD (n-1) 0 - c.arcLengths.getD (n-2) 0) -
    (c.anchorPoints.getD (n-2) default - c.anchorPoints.getD (n-3) default) /
      (c.arcLengths.getD (n-2) 0 - c.arcLengths.getD (n-3) 0)
  diff.rotateHalfPi.normalized * (if diff.crossProj diff2 > 0 then (1:ℚ) else -1)

/-! ### Helper lemmas: componentwise vector arithmetic -/

theorem vec2_add_x (a b : Vec2q) : (a + b).x = a.x + b.x := rfl

theorem vec2_add_y (a b : Vec2q) : (a + b).y = a.y + b.y := rfl

theorem vec2_sub_x (a b : Vec2q) : (a - b).x = a.x - b.x := rfl

theorem vec2_sub_y (a b : Vec2q) : (a - b).y = a.y - b.y := rfl

theorem vec2_mul_x (a : Vec2q) (c : ℚ) : (a * c).x = a.x * c := rfl

theorem vec2_mul_y (a : Vec2q) (c : ℚ) : (a * c).y = a.y * c := rfl

theorem vec2_div_x (a : Vec2q) (c : ℚ) : (a / c).x = a.x / c := rfl

theorem vec2_div_y (a : Vec2q) (c : ℚ) : (a / c).y = a.y / c := rfl

theorem vec2_ext (a b : Vec2q) (hx : a.x = b.x) (hy : a.y = b.y) : a = b := by
  cases a
  cases b
  simp_all

/-! ### Helper lemmas: list access and the breakpoint search -/

theorem headD_eq_getD (l : List ℚ) (d : ℚ) : l.headD d = l.getD 0 d := by
  cases l <;> rfl

theorem getLastD_eq_getD (l : List ℚ) (d : ℚ) (h : l ≠ []) :
    l.getLast?.getD d = l.getD (l.length - 1) d := by
  induction l with
  | nil => exact absurd rfl h
  | cons x t ih =>
    cases t with
    | nil => rfl
    | cons y r =>
      have h2 : (y :: r : List ℚ) ≠ [] := by simp
      have : (x :: y :: r : List ℚ).getLast? = (y :: r).getLast? := by
        simp [List.getLast?]
      rw [this, ih h2]
      simp [List.getD_cons_succ]

theorem firstSatisfying_spec_at (p : ℚ → Bool) (l : List ℚ) (k : ℕ) (hk : k < l.length)
    (hb : ∀ j, j < k → p (l.getD j 0) = false) (ha : p (l.getD k 0) = true) :
    firstSatisfying p l = k := by
  induction l generalizing k with
  | nil => simp at hk
  | cons x t ih =>
    cases k with
    | zero =>
      simp only [List.getD_cons_zero] at ha
      simp [firstSatisfying, ha]
    | succ m =>
      have hx : p x = false := by simpa using hb 0 (Nat.succ_pos m)
      simp only [firstSatisfying, hx, Bool.false_eq_true, if_false, Nat.add_right_cancel_iff]
      exact ih m (by simpa using hk)
        (fun j hj => by simpa using hb (j+1) (by omega))
        (by simpa using ha)

theorem firstSatisfying_eq_length (p : ℚ → Bool) (l : List ℚ)
    (h : ∀ j, j < l.length → p (l.getD j 0) = false) :
    firstSatisfying p l = l.length := by
  induction l with
  | nil => rfl
  | cons x t ih =>
    have hx : p x = false := by simpa using h 0 (by simp)
    simp only [firstSatisfying, hx, Bool.false_eq_true, if_false, List.length_cons,
      Nat.add_right_cancel_iff]
    exact ih (fun j hj => by simpa using h (j+1) (by simpa using hj))

theorem firstSatisfying_le_length (p : ℚ → Bool) (l : List ℚ) :
    firstSatisfying p l ≤ l.length := by
  induction l with
  | nil => simp [firstSatisfying]
  | cons x t ih =>
    cases hpx : p x
    · simp only [firstSatisfying, hpx, Bool.false_eq_true, if_false, List.length_cons]
      omega
    · simp [firstSatisfying, hpx]

theorem upperBoundIdx_spec_at (ts : List ℚ) (t tol : ℚ) (k : ℕ) (hk : k < ts.length)
    (hb : ∀ j, j < k → ts.getD j 0 ≤ t + tol) (ha : t + tol < ts.getD k 0) :
    upperBoundIdx ts t tol = k := by
  apply firstSatisfying_spec_at _ _ _ hk
  · intro j hj
    have := hb j hj
    simp only [decide_eq_false_iff_not]
    intro hlt
    nlinarith [hlt]
  · simp only [decide_eq_true_eq]
    linarith

theorem upperBoundIdx_eq_length (ts : List ℚ) (t tol : ℚ)
    (h : ∀ j, j < ts.length → ts.getD j 0 ≤ t + tol) :
    upperBoundIdx ts t tol = ts.length := by
  apply firstSatisfying_eq_length
  intro j hj
  have := h j hj
  simp only [decide_eq_false_iff_not]
  intro hlt
  nlinarith [hlt]

theorem nearestUpperElement_le_length (ts : List ℚ) (t : ℚ) :
    nearestUpperElement ts t ≤ ts.length := by
  unfold nearestUpperElement
  split_ifs with h1 h2 h3 h4
  · omega
  · omega
  · omega
  · omega
  · exact firstSatisfying_le_length _ _

theorem nue_snap_front (ts : List ℚ) (t : ℚ) (h2 : 2 ≤ ts.length)
    (hf : |t - ts.getD 0 0| < kEpsilon) : nearestUpperElement ts t = 1 := by
  unfold nearestUpperElement
  rw [headD_eq_getD]
  rw [if_neg (by omega), if_pos hf]

theorem nue_snap_back (ts : List ℚ) (t : ℚ) (h2 : 2 ≤ ts.length)
    (hnf : ¬ |t - ts.getD 0 0| < kEpsilon)
    (hb : |t - ts.getD (ts.length - 1) 0| < kEpsilon) :
    nearestUpperElement ts t = ts.length - 1 := by
  unfold nearestUpperElement
  rw [headD_eq_getD, getLastD_eq_getD _ _ (by intro h; rw [h] at h2; simp at h2)]
  rw [if_neg (by omega), if_neg hnf, if_pos hb]

theorem nue_no_snap (ts : List ℚ) (t : ℚ) (h2 : 2 ≤ ts.length)
    (hnf : ¬ |t - ts.getD 0 0| < kEpsilon)
    (hnb : ¬ |t - ts.getD (ts.length - 1) 0| < kEpsilon) :
    nearestUpperElement ts t = upperBoundIdx ts t kEpsilon := by
  unfold nearestUpperElement
  rw [headD_eq_getD, getLastD_eq_getD _ _ (by intro h; rw [h] at h2; simp at h2)]
  rw [if_neg (by omega), if_neg hnf, if_neg hnb]

/-! ### Helper lemmas: sortedness and gap bounds -/

theorem isSortedB_iff_chain (l : List ℚ) : isSortedB l = true ↔ l.Chain' (· ≤ ·) := by
  induction l with
  | nil => simp [isSortedB]
  | cons x t ih =>
    cases t with
    | nil => simp [isSortedB]
    | cons y r =>
      simp only [isSortedB, Bool.and_eq_true, decide_eq_true_eq, List.chain'_cons]
      exact and_congr Iff.rfl ih

theorem gap_mono (ts : List ℚ)
    (hgap : ∀ i, i+1 < ts.length → ts.getD i 0 + kEpsilon ≤ ts.getD (i+1) 0) :
    ∀ i j, i ≤ j → j < ts.length → ts.getD i 0 ≤ ts.getD j 0 := by
  intro i j hij hj
  induction j with
  | zero =>
    have : i = 0 := by omega
    subst this
    rfl
  | succ m ih =>
    rcases Nat.lt_succ_iff_lt_or_eq.1 (Nat.lt_succ_of_le hij) with hlt | heq
    · have h1 : ts.getD i 0 ≤ ts.getD m 0 := ih (by omega) (by omega)
      have h2 := hgap m (by omega)
      have he : (0:ℚ) < kEpsilon := by norm_num [kEpsilon]
      linarith
    · subst heq
      rfl

theorem gap_sep (ts : List ℚ)
    (hgap : ∀ i, i+1 < ts.length → ts.getD i 0 + kEpsilon ≤ ts.getD (i+1) 0)
    (i j : ℕ) (hij : i < j) (hj : j < ts.length) :
    ts.getD i 0 + kEpsilon ≤ ts.getD j 0 := by
  have h1 := hgap i (by omega)
  have h2 := gap_mono ts hgap (i+1) j (by omega) hj
  linarith

/-! ### Claim C1: the tridiagonal solvers -/

theorem luDcmp_last (A : TridiagonalMatrix) (b : ℕ → ℚ) (n : ℕ) :
    A.luDcmp b n (n-1) = A.luFwd b (n-1) / A.u0 (n-1) := by
  unfold TridiagonalMatrix.luDcmp
  rw [Nat.sub_self]
  rfl

theorem luDcmp_step (A : TridiagonalMatrix) (b : ℕ → ℚ) (n i : ℕ) (hi : i + 1 < n) :
    A.luDcmp b n i = (A.luFwd b i - A.a_up i * A.luDcmp b n (i+1)) / A.u0 i := by
  unfold TridiagonalMatrix.luDcmp
  have h1 : n - 1 - i = (n - 2 - i) + 1 := by omega
  have h3 : n - 1 - (i+1) = n - 2 - i := by omega
  rw [h1, h3, TridiagonalMatrix.luBwd]
  have h2 : n - 2 - (n - 2 - i) = i := by omega
  rw [h2]

theorem luDcmp_solves (A : TridiagonalMatrix) (b : ℕ → ℚ) (n : ℕ) (hn : 2 ≤ n)
    (hu : ∀ i, i < n → A.u0 i ≠ 0) :
    ∀ i, i < n → A.mulVec n (A.luDcmp b n) i = b i := by
  intro i hi
  unfold TridiagonalMatrix.mulVec
  rcases i with _ | j
  · rw [if_pos rfl, if_neg (by omega : ¬ (0 : ℕ) = n - 1)]
    have hne := hu 0 (by omega)
    have hmul : A.u0 0 * A.luDcmp b n 0 = A.luFwd b 0 - A.a_up 0 * A.luDcmp b n (0+1) := by
      rw [luDcmp_step A b n 0 (by omega)]
      field_simp
    have hdiag : A.a_diag 0 = A.u0 0 := rfl
    have hy : A.luFwd b 0 = b 0 := rfl
    rw [hdiag]
    linear_combination hmul + hy
  · have hj1 : j + 1 < n := hi
    rw [if_neg (Nat.succ_ne_zero j)]
    have hnej := hu j (by omega)
    have hmulj : A.u0 j * A.luDcmp b n j = A.luFwd b j - A.a_up j * A.luDcmp b n (j+1) := by
      rw [luDcmp_step A b n j (by omega)]
      field_simp
    have hd : A.a_diag (j+1) = A.u0 (j+1) + A.a_low j / A.u0 j * A.a_up j := by
      rw [TridiagonalMatrix.u0]
      ring
    have hy : A.luFwd b (j+1) = b (j+1) - A.a_low j / A.u0 j * A.luFwd b j := by
      rw [TridiagonalMatrix.luFwd, TridiagonalMatrix.l1]
    have hlowsplit : A.a_low j = A.a_low j / A.u0 j * A.u0 j := (div_mul_cancel₀ _ hnej).symm
    simp only [Nat.add_sub_cancel]
    by_cases hlast : j + 1 = n - 1
    · rw [if_pos hlast]
      have hne1 := hu (n-1) (by omega)
      have hmull : A.u0 (j+1) * A.luDcmp b n (j+1) = A.luFwd b (j+1) := by
        rw [hlast, luDcmp_last A b n]
        field_simp
      rw [hd]
      linear_combination A.a_low j / A.u0 j * hmulj + hmull + hy +
        A.luDcmp b n j * hlowsplit
    · rw [if_neg hlast]
      have hnej1 := hu (j+1) (by omega)
      have hmulj1 : A.u0 (j+1) * A.luDcmp b n (j+1) =
          A.luFwd b (j+1) - A.a_up (j+1) * A.luDcmp b n (j+2) := by
        rw [luDcmp_step A b n (j+1) (by omega)]
        field_simp
      rw [hd]
      linear_combination A.a_low j / A.u0 j * hmulj + hmulj1 + hy +
        A.luDcmp b n j * hlowsplit

/-- C1: `TridiagonalMatrix::luDcmp` does return a solution of the tridiagonal
system whenever the (pivot) nonsingularity precondition holds — but
`PeriodicTridiagonalMatrix::luDcmp` does not solve the wrap-around-coupled
system: on the diagonally dominant 3-row periodic system with diagonal 4,
off-diagonal and corner coefficients 1 and right-hand side `(6, 0, 0)` the
returned vector violates row 1 of `A·x = b` (the implementation drops the
fill-in of `u_top` into row `n-2` and of `l_bottom` into column `n-2`). -/
theorem C1_tridiagonal_solvers :
    (∀ (A : TridiagonalMatrix) (b : ℕ → ℚ) (n : ℕ), 2 ≤ n →
      (∀ i, i < n → A.u0 i ≠ 0) →
      ∀ i, i < n → A.mulVec n (A.luDcmp b n) i = b i) ∧
    perA.mulVec 3 (perA.luDcmp perB 3) 1 ≠ perB 1 := by
  constructor
  · exact luDcmp_solves
  · norm_num [perA, perB, PeriodicTridiagonalMatrix.mulVec, PeriodicTridiagonalMatrix.luDcmp,
      PeriodicTridiagonalMatrix.luBwd, PeriodicTridiagonalMatrix.yLast,
      PeriodicTridiagonalMatrix.u0Last, PeriodicTridiagonalMatrix.uTop,
      PeriodicTridiagonalMatrix.lBottom, PeriodicTridiagonalMatrix.tri,
      TridiagonalMatrix.luFwd, TridiagonalMatrix.l1, TridiagonalMatrix.u0, sumIdx,
      List.range_succ]

/-! ### Claim C7: linear extrapolation beyond the breakpoint range -/

theorem plf1_eval_before_front (f : PiecewiseLinearFunction1)
    (h2 : 2 ≤ f.ts.length)
    (hgap : ∀ i, i+1 < f.ts.length → f.ts.getD i 0 + kEpsilon ≤ f.ts.getD (i+1) 0)
    (t : ℚ) (ht : t < f.ts.getD 0 0) :
    f.eval t = f.ys.getD 0 0 + (t - f.ts.getD 0 0) *
      ((f.ys.getD 1 0 - f.ys.getD 0 0) / (f.ts.getD 1 0 - f.ts.getD 0 0)) := by
  have heps : (0:ℚ) < kEpsilon := by norm_num [kEpsilon]
  have hmono := gap_mono f.ts hgap
  have h0N : f.ts.getD 0 0 ≤ f.ts.getD (f.ts.length - 1) 0 := hmono 0 _ (by omega) (by omega)
  by_cases hsf : |t - f.ts.getD 0 0| < kEpsilon
  · have hpos := nue_snap_front f.ts t h2 hsf
    have hne : (1 : ℕ) ≠ f.ts.length := by omega
    simp only [PiecewiseLinearFunction1.eval, hpos, if_neg one_ne_zero, if_neg hne]
    norm_num [lerp]
    ring
  · have habs : kEpsilon ≤ f.ts.getD 0 0 - t := by
      have h' := abs_sub_lt_iff.not.mp hsf
      push_neg at h'
      exact h' (by linarith)
    have hnb : ¬ |t - f.ts.getD (f.ts.length - 1) 0| < kEpsilon := by
      rw [abs_sub_lt_iff]
      push_neg
      intro h
      linarith
    have hpos0 := nue_no_snap f.ts t h2 hsf hnb
    by_cases hc : t + kEpsilon < f.ts.getD 0 0
    · have hub : upperBoundIdx f.ts t kEpsilon = 0 :=
        upperBoundIdx_spec_at f.ts t kEpsilon 0 (by omega) (by omega) hc
      simp only [PiecewiseLinearFunction1.eval, hpos0, hub, eq_self_iff_true, if_true]
      simp only [lerp]
      ring
    · have ha1 : t + kEpsilon < f.ts.getD 1 0 := by
        have hg0 := hgap 0 (by omega)
        linarith
      have hub : upperBoundIdx f.ts t kEpsilon = 1 := by
        apply upperBoundIdx_spec_at f.ts t kEpsilon 1 (by omega) _ ha1
        intro j hj
        have : j = 0 := by omega
        subst this
        push_neg at hc
        linarith
      have hne : (1 : ℕ) ≠ f.ts.length := by omega
      simp only [PiecewiseLinearFunction1.eval, hpos0, hub, if_neg one_ne_zero, if_neg hne]
      norm_num [lerp]
      ring

theorem plf1_eval_after_back (f : PiecewiseLinearFunction1)
    (h2 : 2 ≤ f.ts.length)
    (hgap : ∀ i, i+1 < f.ts.length → f.ts.getD i 0 + kEpsilon ≤ f.ts.getD (i+1) 0)
    (t : ℚ) (ht : f.ts.getD (f.ts.length - 1) 0 < t) :
    f.eval t = f.ys.getD (f.ts.length - 1) 0 + (t - f.ts.getD (f.ts.length - 1) 0) *
      ((f.ys.getD (f.ts.length - 1) 0 - f.ys.getD (f.ts.length - 2) 0) /
        (f.ts.getD (f.ts.length - 1) 0 - f.ts.getD (f.ts.length - 2) 0)) := by
  have heps : (0:ℚ) < kEpsilon := by norm_num [kEpsilon]
  have h0N : f.ts.getD 0 0 + kEpsilon ≤ f.ts.getD (f.ts.length - 1) 0 :=
    gap_sep f.ts hgap 0 _ (by omega) (by omega)
  have hgN : f.ts.getD (f.ts.length - 2) 0 + kEpsilon ≤ f.ts.getD (f.ts.length - 1) 0 := by
    have := hgap (f.ts.length - 2) (by omega)
    have he : f.ts.length - 2 + 1 = f.ts.length - 1 := by omega
    rwa [he] at this
  have hden : f.ts.getD (f.ts.length - 1) 0 - f.ts.getD (f.ts.length - 2) 0 ≠ 0 := by
    intro h
    rw [sub_eq_zero] at h
    linarith [h ▸ hgN]
  have hsf : ¬ |t - f.ts.getD 0 0| < kEpsilon := by
    rw [abs_sub_lt_iff]
    push_neg
    intro h
    linarith
  by_cases hsb : |t - f.ts.getD (f.ts.length - 1) 0| < kEpsilon
  · have hpos := nue_snap_back f.ts t h2 hsf hsb
    have hne0 : f.ts.length - 1 ≠ 0 := by omega
    have hnen : f.ts.length - 1 ≠ f.ts.length := by omega
    have hidx : f.ts.length - 1 - 1 = f.ts.length - 2 := by omega
    simp only [PiecewiseLinearFunction1.eval, hpos, if_neg hne0, if_neg hnen, hidx]
    set T1 := f.ts.getD (f.ts.length - 1) 0 with hT1
    set T2 := f.ts.getD (f.ts.length - 2) 0 with hT2
    set Y1 := f.ys.getD (f.ts.length - 1) 0 with hY1
    set Y2 := f.ys.getD (f.ts.length - 2) 0 with hY2
    have hinv : (T1 - T2) * (T1 - T2)⁻¹ = 1 := mul_inv_cancel₀ hden
    simp only [lerp, div_eq_mul_inv]
    linear_combination (Y1 - Y2) * hinv
  · have hpos0 := nue_no_snap f.ts t h2 hsf hsb
    have hub : upperBoundIdx f.ts t kEpsilon = f.ts.length := by
      apply upperBoundIdx_eq_length
      intro j hj
      have : f.ts.getD j 0 ≤ f.ts.getD (f.ts.length - 1) 0 :=
        gap_mono f.ts hgap j _ (by omega) (by omega)
      linarith
    have hne0 : f.ts.length ≠ 0 := by omega
    have hidx : f.ts.length - 1 - 1 = f.ts.length - 2 := by omega
    simp only [PiecewiseLinearFunction1.eval, hpos0, hub, if_neg hne0, eq_self_iff_true,
      if_true, hidx]
    set T1 := f.ts.getD (f.ts.length - 1) 0 with hT1
    set T2 := f.ts.getD (f.ts.length - 2) 0 with hT2
    set Y1 := f.ys.getD (f.ts.length - 1) 0 with hY1
    set Y2 := f.ys.getD (f.ts.length - 2) 0 with hY2
    simp only [lerp, div_eq_mul_inv]
    rw [show (T2 - T1)⁻¹ = -(T1 - T2)⁻¹ by rw [← neg_sub, inv_neg]]
    ring

/-- C7: for every linear interpolant with validated spacing, a parameter
before the first breakpoint is evaluated on the first segment's extended line
(no clamping), a parameter after the last breakpoint on the last segment's
extended line, and in particular `eval(minT() - δ) = ys[0] - δ·slope₀` for
`δ > 0`. -/
theorem C7_linear_extrapolation (f : PiecewiseLinearFunction1)
    (h2 : 2 ≤ f.ts.length)
    (hgap : ∀ i, i+1 < f.ts.length → f.ts.getD i 0 + kEpsilon ≤ f.ts.getD (i+1) 0) :
    (∀ t, t < f.ts.getD 0 0 →
      f.eval t = f.ys.getD 0 0 + (t - f.ts.getD 0 0) *
        ((f.ys.getD 1 0 - f.ys.getD 0 0) / (f.ts.getD 1 0 - f.ts.getD 0 0))) ∧
    (∀ t, f.ts.getD (f.ts.length - 1) 0 < t →
      f.eval t = f.ys.getD (f.ts.length - 1) 0 + (t - f.ts.getD (f.ts.length - 1) 0) *
        ((f.ys.getD (f.ts.length - 1) 0 - f.ys.getD (f.ts.length - 2) 0) /
          (f.ts.getD (f.ts.length - 1) 0 - f.ts.getD (f.ts.length - 2) 0))) ∧
    (∀ δ : ℚ, 0 < δ →
      f.eval (f.minT - δ) = f.ys.getD 0 0 - δ *
        ((f.ys.getD 1 0 - f.ys.getD 0 0) / (f.ts.getD 1 0 - f.ts.getD 0 0))) := by
  refine ⟨plf1_eval_before_front f h2 hgap, plf1_eval_after_back f h2 hgap, ?_⟩
  intro δ hδ
  have hmin : f.minT = f.ts.getD 0 0 := headD_eq_getD f.ts 0
  have h := plf1_eval_before_front f h2 hgap (f.minT - δ) (by rw [hmin]; linarith)
  rw [h, hmin]
  ring

/-- Witness for C7 at the interpolant `ts = [0, 1]`, `ys = [0, 2]`. -/
theorem C7_linear_extrapolation_witness :
    (⟨[0, 1], [0, 2]⟩ : PiecewiseLinearFunction1).eval (-1) = -2 ∧
    (⟨[0, 1], [0, 2]⟩ : PiecewiseLinearFunction1).eval 3 = 6 := by
  have h := C7_linear_extrapolation ⟨[0, 1], [0, 2]⟩ (by norm_num)
    (by
      intro i hi
      have : i = 0 := by norm_num at hi; omega
      subst this
      norm_num [kEpsilon])
  constructor
  · have h1 := h.1 (-1) (by norm_num)
    rw [h1]
    norm_num
  · have h2 := h.2.1 3 (by norm_num)
    rw [h2]
    norm_num

/-! ### Claim C2: the linear interpolant reproduces its samples -/

/-- C2 counterexample: with breakpoints `[0, 1e-8, 2e-8, 10]` (strictly
increasing, accepted by the validating constructor because only gaps
strictly below the tolerance are rejected) and samples `[0, 5, 0, 0]`,
`eval(ts[1])` returns `0`, not `ys[1] = 5`: the `ε`-tolerant search comparator
treats elements within `tol` of `t` as not-greater, so the bracketing
position lands two segments further right. -/
theorem C2_eval_breakpoint_counterexample :
    mkPiecewiseLinearFunction1 [0, kEpsilon, 2*kEpsilon, 10] [0, 5, 0, 0] =
      .ok ⟨[0, kEpsilon, 2*kEpsilon, 10], [0, 5, 0, 0]⟩ ∧
    (⟨[0, kEpsilon, 2*kEpsilon, 10], [0, 5, 0, 0]⟩ : PiecewiseLinearFunction1).eval
      kEpsilon ≠ 5 := by
  constructor
  · norm_num [mkPiecewiseLinearFunction1, isSortedB, hasDuplicates, sortQ, insertSorted,
      adjacentDupB, abs_lt, kEpsilon]
  · norm_num [PiecewiseLinearFunction1.eval, nearestUpperElement, upperBoundIdx,
      firstSatisfying, lerp, abs_lt, kEpsilon]

theorem plf1_eval_at_breakpoint (f : PiecewiseLinearFunction1)
    (h2 : 2 ≤ f.ts.length)
    (hgap : ∀ i, i+1 < f.ts.length → f.ts.getD i 0 + kEpsilon < f.ts.getD (i+1) 0) :
    ∀ i, i < f.ts.length → f.eval (f.ts.getD i 0) = f.ys.getD i 0 := by
  have heps : (0:ℚ) < kEpsilon := by norm_num [kEpsilon]
  have hgap' : ∀ i, i+1 < f.ts.length → f.ts.getD i 0 + kEpsilon ≤ f.ts.getD (i+1) 0 :=
    fun i hi => le_of_lt (hgap i hi)
  intro i hi
  rcases Nat.eq_zero_or_pos i with h0 | hpos0
  · subst h0
    have hsf : |f.ts.getD 0 0 - f.ts.getD 0 0| < kEpsilon := by
      rw [sub_self, abs_zero]
      exact heps
    have hpos := nue_snap_front f.ts _ h2 hsf
    have hne : (1 : ℕ) ≠ f.ts.length := by omega
    simp only [PiecewiseLinearFunction1.eval, hpos, if_neg one_ne_zero, if_neg hne]
    rw [sub_self, zero_div]
    simp [lerp]
  · have hsf : ¬ |f.ts.getD i 0 - f.ts.getD 0 0| < kEpsilon := by
      have := gap_sep f.ts hgap' 0 i hpos0 hi
      rw [abs_sub_lt_iff]
      push_neg
      intro h
      linarith
    by_cases hlast : i = f.ts.length - 1
    · subst hlast
      have hsb : |f.ts.getD (f.ts.length - 1) 0 - f.ts.getD (f.ts.length - 1) 0| <
          kEpsilon := by
        rw [sub_self, abs_zero]
        exact heps
      have hpos := nue_snap_back f.ts _ h2 hsf hsb
      have hne0 : f.ts.length - 1 ≠ 0 := by omega
      have hnen : f.ts.length - 1 ≠ f.ts.length := by omega
      have hidx : f.ts.length - 1 - 1 = f.ts.length - 2 := by omega
      simp only [PiecewiseLinearFunction1.eval, hpos, if_neg hne0, if_neg hnen, hidx]
      have hgN : f.ts.getD (f.ts.length - 2) 0 + kEpsilon ≤ f.ts.getD (f.ts.length - 1) 0 := by
        have := hgap' (f.ts.length - 2) (by omega)
        have he : f.ts.length - 2 + 1 = f.ts.length - 1 := by omega
        rwa [he] at this
      have hden : f.ts.getD (f.ts.length - 1) 0 - f.ts.getD (f.ts.length - 2) 0 ≠ 0 := by
        intro h
        rw [sub_eq_zero] at h
        linarith [h ▸ hgN]
      rw [div_self hden]
      simp [lerp]
    · have hlt : i < f.ts.length - 1 := by omega
      have hsb : ¬ |f.ts.getD i 0 - f.ts.getD (f.ts.length - 1) 0| < kEpsilon := by
        have := gap_sep f.ts hgap' i (f.ts.length - 1) hlt (by omega)
        rw [abs_sub_lt_iff]
        push_neg
        intro h
        linarith
      have hnue := nue_no_snap f.ts _ h2 hsf hsb
      have hub : upperBoundIdx f.ts (f.ts.getD i 0) kEpsilon = i + 1 := by
        apply upperBoundIdx_spec_at f.ts _ kEpsilon (i+1) (by omega)
        · intro j hj
          have : f.ts.getD j 0 ≤ f.ts.getD i 0 :=
            gap_mono f.ts hgap' j i (by omega) hi
          linarith
        · exact hgap i (by omega)
      have hne : i + 1 ≠ f.ts.length := by omega
      simp only [PiecewiseLinearFunction1.eval, hnue, hub, if_neg (Nat.succ_ne_zero i),
        if_neg hne, Nat.add_sub_cancel]
      rw [sub_self, zero_div]
      simp [lerp]

/-- C2 amended: for every linear interpolant whose consecutive breakpoints
differ by strictly more than the duplicate tolerance `1e-8` (the claim as
stated fails when a gap equals the tolerance exactly), `eval(ts[i]) = ys[i]`
exactly for every `i`, including the first and last breakpoint. -/
theorem C2_eval_reproduces_samples (f : PiecewiseLinearFunction1)
    (h2 : 2 ≤ f.ts.length)
    (hgap : ∀ i, i+1 < f.ts.length → f.ts.getD i 0 + kEpsilon < f.ts.getD (i+1) 0) :
    ∀ i, i < f.ts.length → f.eval (f.ts.getD i 0) = f.ys.getD i 0 :=
  plf1_eval_at_breakpoint f h2 hgap

/-- Witness for C2 at the interpolant `ts = [0, 1, 2]`, `ys = [5, 7, 6]`. -/
theorem C2_eval_reproduces_samples_witness :
    (⟨[0, 1, 2], [5, 7, 6]⟩ : PiecewiseLinearFunction1).eval 1 = 7 := by
  have h := C2_eval_reproduces_samples ⟨[0, 1, 2], [5, 7, 6]⟩ (by norm_num)
    (by
      intro i hi
      norm_num at hi
      have hc : i = 0 ∨ i = 1 := by omega
      rcases hc with rfl | rfl <;> norm_num [kEpsilon])
    1 (by norm_num)
  norm_num at h
  exact h

/-! ### Claim C5: second and third derivatives of the cubic interpolant -/

/-- C5 counterexample: the natural cubic through `ts = [0,1,2]`,
`ys = [0,1,0]` has `accel = [0,-3,0]`; at `t = -5e-9`, strictly outside the
breakpoint range, `derivative(t, 2)` returns `1.5e-8`, not zero, because the
`ε`-tolerant search snaps `t` onto the first breakpoint. -/
theorem C5_derivative2_outside_counterexample :
    mkPiecewiseCubicFunction1 [0, 1, 2] [0, 1, 0] ⟨2, 0⟩ ⟨2, 0⟩ =
      .ok ⟨[0, 1, 2], [0, 1, 0], [0, -3, 0]⟩ ∧
    (-(kEpsilon/2) : ℚ) < 0 ∧
    (⟨[0, 1, 2], [0, 1, 0], [0, -3, 0]⟩ : PiecewiseCubicFunction1).derivativeN
      (-(kEpsilon/2)) 2 ≠ 0 := by
  refine ⟨?_, by norm_num [kEpsilon], ?_⟩
  · norm_num [mkPiecewiseCubicFunction1, isSortedB, hasDuplicates, sortQ, insertSorted,
      adjacentDupB, abs_lt, kEpsilon, pcfDdys, pcfSystem, pcfHs, pcfDs, List.range_succ,
      TridiagonalMatrix.luDcmp, TridiagonalMatrix.luBwd, TridiagonalMatrix.luFwd,
      TridiagonalMatrix.l1, TridiagonalMatrix.u0]
  · norm_num [PiecewiseCubicFunction1.derivativeN, PiecewiseCubicFunction1.derivative2,
      nearestUpperElement, upperBoundIdx, firstSatisfying, lerp, abs_lt, kEpsilon]

theorem pcf1_derivative23_outside (f : PiecewiseCubicFunction1)
    (h2 : 2 ≤ f.ts.length)
    (hgap : ∀ i, i+1 < f.ts.length → f.ts.getD i 0 + kEpsilon ≤ f.ts.getD (i+1) 0)
    (t : ℚ)
    (ht : t < f.ts.getD 0 0 - kEpsilon ∨ f.ts.getD (f.ts.length - 1) 0 + kEpsilon ≤ t) :
    f.derivativeN t 2 = 0 ∧ f.derivativeN t 3 = 0 := by
  have heps : (0:ℚ) < kEpsilon := by norm_num [kEpsilon]
  have hmono := gap_mono f.ts hgap
  have h0N : f.ts.getD 0 0 ≤ f.ts.getD (f.ts.length - 1) 0 := hmono 0 _ (by omega) (by omega)
  rcases ht with ht | ht
  · have hsf : ¬ |t - f.ts.getD 0 0| < kEpsilon := by
      rw [abs_sub_lt_iff]
      push_neg
      intro h
      linarith
    have hsb : ¬ |t - f.ts.getD (f.ts.length - 1) 0| < kEpsilon := by
      rw [abs_sub_lt_iff]
      push_neg
      intro h
      linarith
    have hnue := nue_no_snap f.ts t h2 hsf hsb
    have hub : upperBoundIdx f.ts t kEpsilon = 0 :=
      upperBoundIdx_spec_at f.ts t kEpsilon 0 (by omega) (by omega) (by linarith)
    constructor <;>
      simp [PiecewiseCubicFunction1.derivativeN, PiecewiseCubicFunction1.derivative2,
        PiecewiseCubicFunction1.derivative3, hnue, hub]
  · have hsf : ¬ |t - f.ts.getD 0 0| < kEpsilon := by
      rw [abs_sub_lt_iff]
      push_neg
      intro h
      linarith
    have hsb : ¬ |t - f.ts.getD (f.ts.length - 1) 0| < kEpsilon := by
      rw [abs_sub_lt_iff]
      push_neg
      intro h
      linarith
    have hnue := nue_no_snap f.ts t h2 hsf hsb
    have hub : upperBoundIdx f.ts t kEpsilon = f.ts.length := by
      apply upperBoundIdx_eq_length
      intro j hj
      have : f.ts.getD j 0 ≤ f.ts.getD (f.ts.length - 1) 0 := hmono j _ (by omega) (by omega)
      linarith
    have hne0 : f.ts.length ≠ 0 := by omega
    constructor <;>
      simp [PiecewiseCubicFunction1.derivativeN, PiecewiseCubicFunction1.derivative2,
        PiecewiseCubicFunction1.derivative3, hnue, hub, hne0]

theorem pcf1_derivative23_inside (f : PiecewiseCubicFunction1)
    (h2 : 2 ≤ f.ts.length)
    (hgap : ∀ i, i+1 < f.ts.length → f.ts.getD i 0 + kEpsilon ≤ f.ts.getD (i+1) 0)
    (i : ℕ) (t : ℚ) (hi : i + 1 < f.ts.length)
    (hlo : f.ts.getD i 0 + kEpsilon < t) (hhi : t + kEpsilon < f.ts.getD (i+1) 0) :
    f.derivativeN t 2 = lerp (f.ddys.getD i 0) (f.ddys.getD (i+1) 0)
      ((t - f.ts.getD i 0) / (f.ts.getD (i+1) 0 - f.ts.getD i 0)) ∧
    f.derivativeN t 3 = (f.ddys.getD (i+1) 0 - f.ddys.getD i 0) /
      (f.ts.getD (i+1) 0 - f.ts.getD i 0) := by
  have heps : (0:ℚ) < kEpsilon := by norm_num [kEpsilon]
  have hmono := gap_mono f.ts hgap
  have hsf : ¬ |t - f.ts.getD 0 0| < kEpsilon := by
    have : f.ts.getD 0 0 ≤ f.ts.getD i 0 := hmono 0 i (by omega) (by omega)
    rw [abs_sub_lt_iff]
    push_neg
    intro h
    linarith
  have hsb : ¬ |t - f.ts.getD (f.ts.length - 1) 0| < kEpsilon := by
    have : f.ts.getD (i+1) 0 ≤ f.ts.getD (f.ts.length - 1) 0 :=
      hmono (i+1) _ (by omega) (by omega)
    rw [abs_sub_lt_iff]
    push_neg
    intro h
    linarith
  have hnue := nue_no_snap f.ts t h2 hsf hsb
  have hub : upperBoundIdx f.ts t kEpsilon = i + 1 := by
    apply upperBoundIdx_spec_at f.ts t kEpsilon (i+1) (by omega) _ hhi
    intro j hj
    have : f.ts.getD j 0 ≤ f.ts.getD i 0 := hmono j i (by omega) (by omega)
    linarith
  have hne : i + 1 ≠ f.ts.length := by omega
  constructor <;>
    simp [PiecewiseCubicFunction1.derivativeN, PiecewiseCubicFunction1.derivative2,
      PiecewiseCubicFunction1.derivative3, hnue, hub, hne, Nat.add_sub_cancel]

/-- C5 amended: `derivative(t, 2)` and `derivative(t, 3)` are exactly zero for
every `t` below `minT() - 1e-8` or at/above `maxT() + 1e-8` (the claim as
stated fails in the `1e-8`-wide snap band just outside the breakpoint range);
for `t` safely inside segment `i`, the 2nd derivative is the linear
interpolation of `accel` over that segment and the 3rd its constant
difference quotient. -/
theorem C5_secondthird_derivative (f : PiecewiseCubicFunction1)
    (h2 : 2 ≤ f.ts.length)
    (hgap : ∀ i, i+1 < f.ts.length → f.ts.getD i 0 + kEpsilon ≤ f.ts.getD (i+1) 0) :
    (∀ t, (t < f.ts.getD 0 0 - kEpsilon ∨ f.ts.getD (f.ts.length - 1) 0 + kEpsilon ≤ t) →
      f.derivativeN t 2 = 0 ∧ f.derivativeN t 3 = 0) ∧
    (∀ i t, i + 1 < f.ts.length →
      f.ts.getD i 0 + kEpsilon < t → t + kEpsilon < f.ts.getD (i+1) 0 →
      f.derivativeN t 2 = lerp (f.ddys.getD i 0) (f.ddys.getD (i+1) 0)
        ((t - f.ts.getD i 0) / (f.ts.getD (i+1) 0 - f.ts.getD i 0)) ∧
      f.derivativeN t 3 = (f.ddys.getD (i+1) 0 - f.ddys.getD i 0) /
        (f.ts.getD (i+1) 0 - f.ts.getD i 0)) :=
  ⟨fun t ht => pcf1_derivative23_outside f h2 hgap t ht,
   fun i t hi hlo hhi => pcf1_derivative23_inside f h2 hgap i t hi hlo hhi⟩

/-- Witness for C5 at the natural cubic `ts = [0,1,2]`, `ys = [0,1,0]`,
`accel = [0,-3,0]`. -/
theorem C5_secondthird_derivative_witness :
    (⟨[0, 1, 2], [0, 1, 0], [0, -3, 0]⟩ : PiecewiseCubicFunction1).derivativeN (-1) 2 = 0 ∧
    (⟨[0, 1, 2], [0, 1, 0], [0, -3, 0]⟩ : PiecewiseCubicFunction1).derivativeN (1/2) 2 =
      -(3/2) := by
  have h := C5_secondthird_derivative ⟨[0, 1, 2], [0, 1, 0], [0, -3, 0]⟩ (by norm_num)
    (by
      intro i hi
      norm_num at hi
      have hc : i = 0 ∨ i = 1 := by omega
      rcases hc with rfl | rfl <;> norm_num [kEpsilon])
  constructor
  · exact (h.1 (-1) (by norm_num [kEpsilon])).1
  · have h2 := (h.2 0 (1/2) (by norm_num) (by norm_num [kEpsilon])
      (by norm_num [kEpsilon])).1
    rw [h2]
    norm_num [lerp]

/-! ### Claim C8: cumulative arc lengths of the curve constructor -/

theorem arcAux_length (s : ℚ) (p : Vec2q) (l : List Vec2q) :
    (arcAux s p l).length = l.length := by
  induction l generalizing s p with
  | nil => rfl
  | cons q r ih => simp [arcAux, ih]

theorem cumulativeArcLengths_length (pts : List Vec2q) (s0 : ℚ) :
    (cumulativeArcLengths pts s0).length = pts.length := by
  cases pts with
  | nil => rfl
  | cons p rest => simp [cumulativeArcLengths, arcAux_length]

theorem arcAux_eq_cum (s0 : ℚ) (p : Vec2q) (l : List Vec2q) :
    arcAux s0 p l = cumulativeArcLengths l (s0 + (l.headD default).euclideanTo p) := by
  cases l with
  | nil => rfl
  | cons q r2 => rfl

theorem cumulativeArcLengths_step (pts : List Vec2q) :
    ∀ (s0 : ℚ) (i : ℕ), i + 1 < pts.length →
      (cumulativeArcLengths pts s0).getD (i+1) 0 =
        (cumulativeArcLengths pts s0).getD i 0 +
          (pts.getD (i+1) default).euclideanTo (pts.getD i default) := by
  induction pts with
  | nil => intro s0 i hi; simp at hi
  | cons p rest ih =>
    intro s0 i hi
    cases rest with
    | nil => simp at hi
    | cons q r2 =>
      cases i with
      | zero => simp [cumulativeArcLengths, arcAux]
      | succ j =>
        have hj : j + 1 < (q :: r2).length := by simpa using hi
        have hstep := ih (s0 + q.euclideanTo p) j hj
        have harc : arcAux s0 p (q :: r2) =
            cumulativeArcLengths (q :: r2) (s0 + q.euclideanTo p) := by
          simpa using arcAux_eq_cum s0 p (q :: r2)
        show (arcAux s0 p (q :: r2)).getD (j+1) 0 =
          (arcAux s0 p (q :: r2)).getD j 0 +
            ((q :: r2).getD (j+1) default).euclideanTo ((q :: r2).getD j default)
        rw [harc]
        exact hstep

theorem sortQ_of_sorted (l : List ℚ) (h : isSortedB l = true) : sortQ l = l := by
  induction l with
  | nil => rfl
  | cons a t ih =>
    cases t with
    | nil => rfl
    | cons b r =>
      simp only [isSortedB, Bool.and_eq_true, decide_eq_true_eq] at h
      have ht := ih h.2
      simp only [sortQ] at ht ⊢
      rw [ht]
      simp [insertSorted, h.1]

theorem adjacentDupB_false (tol : ℚ) (l : List ℚ) (h : adjacentDupB tol l = false) :
    ∀ i, i + 1 < l.length → ¬ (|l.getD (i+1) 0 - l.getD i 0| < tol) := by
  induction l with
  | nil => intro i hi; simp at hi
  | cons a t ih =>
    cases t with
    | nil => intro i hi; simp at hi
    | cons b r =>
      simp only [adjacentDupB, Bool.or_eq_false_iff, decide_eq_false_iff_not] at h
      intro i hi
      cases i with
      | zero => simpa using h.1
      | succ j =>
        have := ih h.2 j (by simpa using hi)
        simpa using this

theorem mkCurve_ok_elim (pts : List Vec2q) (s0 : ℚ) (c : PiecewiseLinearCurve2)
    (h : mkPiecewiseLinearCurve2 pts s0 = .ok c) :
    c.arcLengths = cumulativeArcLengths pts s0 ∧ c.anchorPoints = pts ∧
      2 ≤ pts.length ∧ isSortedB (cumulativeArcLengths pts s0) = true ∧
      hasDuplicates (cumulativeArcLengths pts s0) kEpsilon = false := by
  simp only [mkPiecewiseLinearCurve2] at h
  split_ifs at h with h1 h2 h3 h4 h5
  rw [Except.ok.injEq] at h
  subst h
  refine ⟨rfl, rfl, by omega, ?_, ?_⟩
  · simpa using h4
  · simpa using h5

/-- C8: for every successfully constructed curve, the derived arc-length
breakpoints satisfy `arc[0] = s0` and
`arc[i+1] = arc[i] + ‖p[i+1] - p[i]‖`, they are strictly increasing, they are
exposed unchanged through `arcLengths()`, and `minS()`/`maxS()` are the first
and last arc length. -/
theorem C8_arc_lengths (pts : List Vec2q) (s0 : ℚ) (c : PiecewiseLinearCurve2)
    (h : mkPiecewiseLinearCurve2 pts s0 = .ok c) :
    c.arcLengths.getD 0 0 = s0 ∧
    (∀ i, i + 1 < pts.length → c.arcLengths.getD (i+1) 0 =
      c.arcLengths.getD i 0 + (pts.getD (i+1) default).euclideanTo (pts.getD i default)) ∧
    (∀ i, i + 1 < c.arcLengths.length →
      c.arcLengths.getD i 0 < c.arcLengths.getD (i+1) 0) ∧
    c.arcLengths = cumulativeArcLengths pts s0 ∧
    c.anchorPoints = pts ∧
    c.minS = c.arcLengths.getD 0 0 ∧
    c.maxS = c.arcLengths.getD (c.arcLengths.length - 1) 0 := by
  obtain ⟨harc, hpts, hlen, hsorted, hdup⟩ := mkCurve_ok_elim pts s0 c h
  have hlenarc : c.arcLengths.length = pts.length := by
    rw [harc]; exact cumulativeArcLengths_length pts s0
  have heps : (0:ℚ) < kEpsilon := by norm_num [kEpsilon]
  have hhead : c.arcLengths.getD 0 0 = s0 := by
    rw [harc]
    cases pts with
    | nil => simp at hlen
    | cons p rest => rfl
  have hgap : ∀ i, i + 1 < c.arcLengths.length →
      c.arcLengths.getD i 0 + kEpsilon ≤ c.arcLengths.getD (i+1) 0 := by
    intro i hi
    have hsort2 : sortQ (cumulativeArcLengths pts s0) = cumulativeArcLengths pts s0 :=
      sortQ_of_sorted _ hsorted
    have hd : adjacentDupB kEpsilon (cumulativeArcLengths pts s0) = false := by
      unfold hasDuplicates at hdup
      rw [if_neg (by rw [cumulativeArcLengths_length]; omega), hsort2] at hdup
      exact hdup
    have hnd := adjacentDupB_false kEpsilon _ hd i (by rw [← harc]; exact hi)
    have hle : c.arcLengths.getD i 0 ≤ c.arcLengths.getD (i+1) 0 := by
      have hchain := (isSortedB_iff_chain _).mp hsorted
      have hpw := List.chain'_iff_pairwise.mp hchain
      have hget := List.pairwise_iff_get.mp hpw
      have hi1 : i + 1 < (cumulativeArcLengths pts s0).length := by rw [← harc]; exact hi
      have hgot := hget ⟨i, by omega⟩ ⟨i+1, hi1⟩ (by simp)
      rw [harc]
      rwa [List.getD_eq_getElem?_getD, List.getD_eq_getElem?_getD,
        List.getElem?_eq_getElem (by omega : i < (cumulativeArcLengths pts s0).length),
        List.getElem?_eq_getElem hi1, Option.getD_some, Option.getD_some]
    rw [harc] at hle ⊢
    rw [abs_of_nonneg (by linarith : (0:ℚ) ≤ (cumulativeArcLengths pts s0).getD (i+1) 0 -
      (cumulativeArcLengths pts s0).getD i 0)] at hnd
    linarith [not_lt.mp hnd]
  refine ⟨hhead, ?_, ?_, harc, hpts, ?_, ?_⟩
  · intro i hi
    rw [harc]
    exact cumulativeArcLengths_step pts s0 i hi
  · intro i hi
    have := hgap i hi
    linarith
  · exact headD_eq_getD _ _
  · exact getLastD_eq_getD _ _ (by
      intro hnil
      rw [hnil] at hlenarc
      simp at hlenarc
      omega)

/-- Witness for C8 at `triPts` with `s0 = 0` (arc lengths `[0, 1, 2]`). -/
theorem C8_arc_lengths_witness :
    triCurve.arcLengths.getD 0 0 = 0 ∧
    triCurve.arcLengths.getD 0 0 < triCurve.arcLengths.getD 1 0 ∧
    triCurve.minS = 0 ∧ triCurve.maxS = 2 := by
  have h := C8_arc_lengths triPts 0 triCurve (by
    norm_num [mkPiecewiseLinearCurve2, triPts, triCurve, cumulativeArcLengths, arcAux,
      Vec2q.euclideanTo, ratSqrt, natSqrtLinear, natSqrtAux, isSortedB, hasDuplicates,
      sortQ, insertSorted, adjacentDupB, abs_lt, kEpsilon])
  refine ⟨h.1, h.2.2.1 0 (by norm_num [triCurve]), ?_, ?_⟩
  · rw [h.2.2.2.2.2.1, h.1]
  · rw [h.2.2.2.2.2.2]
    norm_num [triCurve]

/-! ### Claim C4: index bounds of the curve operations -/

theorem get?_some {α : Type} (l : List α) (i : ℕ) (h : i < l.length) :
    ∃ v, l.get? i = some v :=
  ⟨l.get ⟨i, h⟩, List.get?_eq_get h⟩

theorem vecArgminAux_lt (p : Vec2q) :
    ∀ (l : List Vec2q) (i j : ℕ) (m : ℚ), j < i →
      vecArgminAux p l i (some (j, m)) < i + l.length := by
  intro l
  induction l with
  | nil =>
    intro i j m hj
    simpa [vecArgminAux] using hj
  | cons q rest ih =>
    intro i j m hj
    simp only [vecArgminAux]
    split_ifs with hd
    · have := ih (i+1) i (p.euclideanTo q) (by omega)
      simpa [Nat.add_assoc, Nat.add_comm 1 rest.length] using this
    · have := ih (i+1) j m (by omega)
      simpa [Nat.add_assoc, Nat.add_comm 1 rest.length] using this

theorem vecArgmin_lt_length (pts : List Vec2q) (p : Vec2q) (h : pts ≠ []) :
    vecArgmin pts p < pts.length := by
  cases pts with
  | nil => exact absurd rfl h
  | cons q rest =>
    show vecArgminAux p rest 1 (some (0, p.euclideanTo q)) < rest.length + 1
    have := vecArgminAux_lt p rest 1 0 (p.euclideanTo q) one_pos
    omega

theorem vecNearestUpperElement_le_length (pts : List Vec2q) (p : Vec2q) :
    vecNearestUpperElement pts p ≤ pts.length := by
  simp only [vecNearestUpperElement]
  split_ifs with h1 h2 h3 h4 h5 h6
  · omega
  · omega
  · omega
  · omega
  · omega
  · have := vecArgmin_lt_length pts p (by intro hnil; rw [hnil] at h1; simp at h1)
    omega
  · have := vecArgmin_lt_length pts p (by intro hnil; rw [hnil] at h1; simp at h1)
    omega

theorem curve2_evalSl_isSome (c : PiecewiseLinearCurve2)
    (hlen : c.anchorPoints.length = c.arcLengths.length)
    (h3 : 3 ≤ c.arcLengths.length) (s l : ℚ) :
    (c.evalSl? s l).isSome = true := by
  simp only [PiecewiseLinearCurve2.evalSl?]
  have hb := nearestUpperElement_le_length c.arcLengths s
  set pos := nearestUpperElement c.arcLengths s with hposd
  split_ifs with hc1 hc2
  · obtain ⟨a0, h0⟩ := get?_some c.arcLengths 0 (by omega)
    obtain ⟨a1, h1⟩ := get?_some c.arcLengths 1 (by omega)
    obtain ⟨a2, h2⟩ := get?_some c.arcLengths 2 (by omega)
    obtain ⟨p0, hp0⟩ := get?_some c.anchorPoints 0 (by omega)
    obtain ⟨p1, hp1⟩ := get?_some c.anchorPoints 1 (by omega)
    obtain ⟨p2, hp2⟩ := get?_some c.anchorPoints 2 (by omega)
    rw [h0, h1, h2, hp0, hp1, hp2]
    rfl
  · obtain ⟨a0, h0⟩ := get?_some c.arcLengths (c.arcLengths.length - 1) (by omega)
    obtain ⟨a1, h1⟩ := get?_some c.arcLengths (c.arcLengths.length - 2) (by omega)
    obtain ⟨a2, h2⟩ := get?_some c.arcLengths (c.arcLengths.length - 3) (by omega)
    obtain ⟨p0, hp0⟩ := get?_some c.anchorPoints (c.arcLengths.length - 1) (by omega)
    obtain ⟨p1, hp1⟩ := get?_some c.anchorPoints (c.arcLengths.length - 2) (by omega)
    obtain ⟨p2, hp2⟩ := get?_some c.anchorPoints (c.arcLengths.length - 3) (by omega)
    rw [h0, h1, h2, hp0, hp1, hp2]
    rfl
  · simp only [PiecewiseLinearCurve2.process?]
    obtain ⟨b1, h1⟩ := get?_some c.arcLengths (pos - 1) (by omega)
    obtain ⟨b2, h2⟩ := get?_some c.arcLengths pos (by omega)
    obtain ⟨b3, h3'⟩ := get?_some c.arcLengths (pos - 2) (by omega)
    obtain ⟨q1, hq1⟩ := get?_some c.anchorPoints (pos - 1) (by omega)
    obtain ⟨q2, hq2⟩ := get?_some c.anchorPoints pos (by omega)
    obtain ⟨q3, hq3⟩ := get?_some c.anchorPoints (pos - 2) (by omega)
    rw [h1, h2, h3', hq1, hq2, hq3]
    rfl

theorem curve2_normal_isSome (c : PiecewiseLinearCurve2)
    (hlen : c.anchorPoints.length = c.arcLengths.length)
    (h3 : 3 ≤ c.arcLengths.length) (s : ℚ) :
    (c.normal? s).isSome = true := by
  simp only [PiecewiseLinearCurve2.normal?]
  have hb := nearestUpperElement_le_length c.arcLengths s
  set pos := nearestUpperElement c.arcLengths s with hposd
  split_ifs with hc1 hc2
  · obtain ⟨a0, h0⟩ := get?_some c.arcLengths 0 (by omega)
    obtain ⟨a1, h1⟩ := get?_some c.arcLengths 1 (by omega)
    obtain ⟨a2, h2⟩ := get?_some c.arcLengths 2 (by omega)
    obtain ⟨p0, hp0⟩ := get?_some c.anchorPoints 0 (by omega)
    obtain ⟨p1, hp1⟩ := get?_some c.anchorPoints 1 (by omega)
    obtain ⟨p2, hp2⟩ := get?_some c.anchorPoints 2 (by omega)
    rw [h0, h1, h2, hp0, hp1, hp2]
    rfl
  · obtain ⟨a0, h0⟩ := get?_some c.arcLengths (c.arcLengths.length - 1) (by omega)
    obtain ⟨a1, h1⟩ := get?_some c.arcLengths (c.arcLengths.length - 2) (by omega)
    obtain ⟨a2, h2⟩ := get?_some c.arcLengths (c.arcLengths.length - 3) (by omega)
    obtain ⟨p0, hp0⟩ := get?_some c.anchorPoints (c.arcLengths.length - 1) (by omega)
    obtain ⟨p1, hp1⟩ := get?_some c.anchorPoints (c.arcLengths.length - 2) (by omega)
    obtain ⟨p2, hp2⟩ := get?_some c.anchorPoints (c.arcLengths.length - 3) (by omega)
    rw [h0, h1, h2, hp0, hp1, hp2]
    rfl
  · simp only [PiecewiseLinearCurve2.process?]
    obtain ⟨b1, h1⟩ := get?_some c.arcLengths (pos - 1) (by omega)
    obtain ⟨b2, h2⟩ := get?_some c.arcLengths pos (by omega)
    obtain ⟨b3, h3'⟩ := get?_some c.arcLengths (pos - 2) (by omega)
    obtain ⟨q1, hq1⟩ := get?_some c.anchorPoints (pos - 1) (by omega)
    obtain ⟨q2, hq2⟩ := get?_some c.anchorPoints pos (by omega)
    obtain ⟨q3, hq3⟩ := get?_some c.anchorPoints (pos - 2) (by omega)
    rw [h1, h2, h3', hq1, hq2, hq3]
    rfl

theorem curve2_inverse_isSome (c : PiecewiseLinearCurve2)
    (hlen : c.anchorPoints.length = c.arcLengths.length)
    (h3 : 3 ≤ c.arcLengths.length) (point : Vec2q) :
    (c.inverse? point).isSome = true := by
  simp only [PiecewiseLinearCurve2.inverse?]
  have hb := vecNearestUpperElement_le_length c.anchorPoints point
  set pos := vecNearestUpperElement c.anchorPoints point with hposd
  split_ifs with hc1 hc2
  · obtain ⟨a0, h0⟩ := get?_some c.arcLengths 0 (by omega)
    obtain ⟨a1, h1⟩ := get?_some c.arcLengths 1 (by omega)
    obtain ⟨a2, h2⟩ := get?_some c.arcLengths 2 (by omega)
    obtain ⟨p0, hp0⟩ := get?_some c.anchorPoints 0 (by omega)
    obtain ⟨p1, hp1⟩ := get?_some c.anchorPoints 1 (by omega)
    obtain ⟨p2, hp2⟩ := get?_some c.anchorPoints 2 (by omega)
    rw [h0, h1, h2, hp0, hp1, hp2]
    rfl
  · obtain ⟨a0, h0⟩ := get?_some c.arcLengths (c.anchorPoints.length - 1) (by omega)
    obtain ⟨a1, h1⟩ := get?_some c.arcLengths (c.anchorPoints.length - 2) (by omega)
    obtain ⟨a2, h2⟩ := get?_some c.arcLengths (c.anchorPoints.length - 3) (by omega)
    obtain ⟨p0, hp0⟩ := get?_some c.anchorPoints (c.anchorPoints.length - 1) (by omega)
    obtain ⟨p1, hp1⟩ := get?_some c.anchorPoints (c.anchorPoints.length - 2) (by omega)
    obtain ⟨p2, hp2⟩ := get?_some c.anchorPoints (c.anchorPoints.length - 3) (by omega)
    rw [h0, h1, h2, hp0, hp1, hp2]
    rfl
  · simp only [PiecewiseLinearCurve2.process?]
    obtain ⟨q0, hq0⟩ := get?_some c.anchorPoints (pos - 1) (by omega)
    obtain ⟨b0, hb0⟩ := get?_some c.arcLengths (pos - 1) (by omega)
    obtain ⟨b3, h3'⟩ := get?_some c.arcLengths (pos - 2) (by omega)
    obtain ⟨b2, h2⟩ := get?_some c.arcLengths pos (by omega)
    obtain ⟨q3, hq3⟩ := get?_some c.anchorPoints (pos - 2) (by omega)
    obtain ⟨q2, hq2⟩ := get?_some c.anchorPoints pos (by omega)
    rw [hq0, hb0, h3', h2, hq3, hq2]
    rfl

theorem curve3_binormal_isSome (c : PiecewiseLinearCurve3)
    (hlen : c.anchorPoints.length = c.arcLengths.length)
    (h3 : 3 ≤ c.arcLengths.length) (s : ℚ) :
    (c.binormal? s).isSome = true := by
  simp only [PiecewiseLinearCurve3.binormal?]
  have hb := nearestUpperElement_le_length c.arcLengths s
  set pos := nearestUpperElement c.arcLengths s with hposd
  split_ifs with hc1 hc2
  · obtain ⟨a0, h0⟩ := get?_some c.arcLengths 0 (by omega)
    obtain ⟨a1, h1⟩ := get?_some c.arcLengths 1 (by omega)
    obtain ⟨a2, h2⟩ := get?_some c.arcLengths 2 (by omega)
    obtain ⟨p0, hp0⟩ := get?_some c.anchorPoints 0 (by omega)
    obtain ⟨p1, hp1⟩ := get?_some c.anchorPoints 1 (by omega)
    obtain ⟨p2, hp2⟩ := get?_some c.anchorPoints 2 (by omega)
    rw [h0, h1, h2, hp0, hp1, hp2]
    rfl
  · obtain ⟨a0, h0⟩ := get?_some c.arcLengths (c.arcLengths.length - 1) (by omega)
    obtain ⟨a1, h1⟩ := get?_some c.arcLengths (c.arcLengths.length - 2) (by omega)
    obtain ⟨a2, h2⟩ := get?_some c.arcLengths (c.arcLengths.length - 3) (by omega)
    obtain ⟨p0, hp0⟩ := get?_some c.anchorPoints (c.arcLengths.length - 1) (by omega)
    obtain ⟨p1, hp1⟩ := get?_some c.anchorPoints (c.arcLengths.length - 2) (by omega)
    obtain ⟨p2, hp2⟩ := get?_some c.anchorPoints (c.arcLengths.length - 3) (by omega)
    rw [h0, h1, h2, hp0, hp1, hp2]
    rfl
  · obtain ⟨b3, h3'⟩ := get?_some c.arcLengths (pos - 2) (by omega)
    obtain ⟨b1, h1⟩ := get?_some c.arcLengths (pos - 1) (by omega)
    obtain ⟨b2, h2⟩ := get?_some c.arcLengths pos (by omega)
    obtain ⟨q3, hq3⟩ := get?_some c.anchorPoints (pos - 2) (by omega)
    obtain ⟨q1, hq1⟩ := get?_some c.anchorPoints (pos - 1) (by omega)
    obtain ⟨q2, hq2⟩ := get?_some c.anchorPoints pos (by omega)
    rw [h3', h1, h2, hq3, hq1, hq2]
    rfl

/-- C4: with at least 3 anchor points every array access of `eval(s, l)`,
`normal(s)`, `binormal(s)` and `inverse(point)` stays within bounds; yet the
constructor accepts exactly 2 anchor points (only `size < 2` is rejected), and
then these operations read `anchor_points[2]` / `arc_lengths[2]` past the end
of the arrays — so the in-bounds guarantee requires `size ≥ 3`, not the
documented `size ≥ 2`. -/
theorem C4_curve_index_bounds :
    (∀ (c : PiecewiseLinearCurve2), c.anchorPoints.length = c.arcLengths.length →
      3 ≤ c.arcLengths.length →
      (∀ s l, (c.evalSl? s l).isSome = true) ∧
      (∀ s, (c.normal? s).isSome = true) ∧
      (∀ point, (c.inverse? point).isSome = true)) ∧
    (∀ (c : PiecewiseLinearCurve3), c.anchorPoints.length = c.arcLengths.length →
      3 ≤ c.arcLengths.length → ∀ s, (c.binormal? s).isSome = true) ∧
    mkPiecewiseLinearCurve2 twoPts 0 = .ok twoCurve ∧
    twoCurve.evalSl? (1/2) 1 = none ∧
    twoCurve.normal? (1/2) = none ∧
    twoCurve.inverse? ⟨0, 0⟩ = none ∧
    two3Curve.binormal? (1/2) = none := by
  refine ⟨fun c hlen h3 => ⟨curve2_evalSl_isSome c hlen h3,
      curve2_normal_isSome c hlen h3, curve2_inverse_isSome c hlen h3⟩,
    fun c hlen h3 => curve3_binormal_isSome c hlen h3, ?_, ?_, ?_, ?_, ?_⟩
  · norm_num [mkPiecewiseLinearCurve2, twoPts, twoCurve, cumulativeArcLengths, arcAux,
      Vec2q.euclideanTo, ratSqrt, natSqrtLinear, natSqrtAux, isSortedB, hasDuplicates,
      sortQ, insertSorted, adjacentDupB, abs_lt, kEpsilon]
  · norm_num [PiecewiseLinearCurve2.evalSl?, twoCurve, twoPts, nearestUpperElement,
      upperBoundIdx, firstSatisfying, abs_lt, kEpsilon]
  · norm_num [PiecewiseLinearCurve2.normal?, twoCurve, twoPts, nearestUpperElement,
      upperBoundIdx, firstSatisfying, abs_lt, kEpsilon]
  · norm_num [PiecewiseLinearCurve2.inverse?, twoCurve, twoPts, vecNearestUpperElement,
      vecArgmin, vecArgminAux, Vec2q.euclideanTo, Vec2q.dot, ratSqrt, natSqrtLinear,
      natSqrtAux, vec2_sub_x, vec2_sub_y, kEpsilon]
  · norm_num [PiecewiseLinearCurve3.binormal?, two3Curve, nearestUpperElement,
      upperBoundIdx, firstSatisfying, abs_lt, kEpsilon]

/-! ### Claim C10: normals at the boundary segments -/

theorem get?_eq_some_getD {α : Type} (l : List α) (d : α) (i : ℕ) (h : i < l.length) :
    l.get? i = some (l.getD i d) := by
  rw [List.get?_eq_get h]
  congr 1
  rw [List.getD_eq_getElem?_getD, List.getElem?_eq_getElem h]
  rfl

theorem normal_first_branch (c : PiecewiseLinearCurve2)
    (hlen : c.anchorPoints.length = c.arcLengths.length) (h3 : 3 ≤ c.arcLengths.length)
    (s : ℚ) (hpos : nearestUpperElement c.arcLengths s < 2) :
    c.normal? s = some (firstSegmentNormal c) := by
  simp only [PiecewiseLinearCurve2.normal?]
  rw [if_pos hpos]
  rw [get?_eq_some_getD c.arcLengths 0 0 (by omega),
    get?_eq_some_getD c.arcLengths 0 1 (by omega),
    get?_eq_some_getD c.arcLengths 0 2 (by omega),
    get?_eq_some_getD c.anchorPoints default 0 (by omega),
    get?_eq_some_getD c.anchorPoints default 1 (by omega),
    get?_eq_some_getD c.anchorPoints default 2 (by omega)]
  rfl

theorem normal_end_branch (c : PiecewiseLinearCurve2)
    (hlen : c.anchorPoints.length = c.arcLengths.length) (h3 : 3 ≤ c.arcLengths.length)
    (s : ℚ) (hpos : nearestUpperElement c.arcLengths s = c.arcLengths.length) :
    c.normal? s = some (lastSegmentNormal c) := by
  simp only [PiecewiseLinearCurve2.normal?, hpos]
  rw [if_neg (by omega), if_pos trivial]
  rw [get?_eq_some_getD c.arcLengths 0 (c.arcLengths.length - 1) (by omega),
    get?_eq_some_getD c.arcLengths 0 (c.arcLengths.length - 2) (by omega),
    get?_eq_some_getD c.arcLengths 0 (c.arcLengths.length - 3) (by omega),
    get?_eq_some_getD c.anchorPoints default (c.arcLengths.length - 1) (by omega),
    get?_eq_some_getD c.anchorPoints default (c.arcLengths.length - 2) (by omega),
    get?_eq_some_getD c.anchorPoints default (c.arcLengths.length - 3) (by omega)]
  rfl

theorem normal_interior_last_branch (c : PiecewiseLinearCurve2)
    (hlen : c.anchorPoints.length = c.arcLengths.length) (h3 : 3 ≤ c.arcLengths.length)
    (s : ℚ)
    (hpos : nearestUpperElement c.arcLengths s = c.arcLengths.length - 1) :
    c.normal? s = some (lastSegmentNormal c) := by
  simp only [PiecewiseLinearCurve2.normal?, PiecewiseLinearCurve2.process?, hpos]
  rw [if_neg (by omega), if_neg (by omega)]
  rw [show c.arcLengths.length - 1 - 1 = c.arcLengths.length - 2 by omega,
    show c.arcLengths.length - 1 - 2 = c.arcLengths.length - 3 by omega]
  rw [get?_eq_some_getD c.arcLengths 0 (c.arcLengths.length - 2) (by omega),
    get?_eq_some_getD c.arcLengths 0 (c.arcLengths.length - 1) (by omega),
    get?_eq_some_getD c.arcLengths 0 (c.arcLengths.length - 3) (by omega),
    get?_eq_some_getD c.anchorPoints default (c.arcLengths.length - 2) (by omega),
    get?_eq_some_getD c.anchorPoints default (c.arcLengths.length - 1) (by omega),
    get?_eq_some_getD c.anchorPoints default (c.arcLengths.length - 3) (by omega)]
  rfl

/-- C10: on the first boundary segment the 2D normal is computed from
`diff = p_1 - p_0` with the turning direction taken from the *next* segment
pair, and on the last boundary segment from `diff = p_{n-1} - p_{n-2}` with
the turning direction from the *previous* segment pair; in both cases the
returned normal is `diff` rotated by half pi, normalized, times the sign of
`crossProj(diff, diff2)`. -/
theorem C10_normal_boundary (c : PiecewiseLinearCurve2)
    (hlen : c.anchorPoints.length = c.arcLengths.length) (h3 : 3 ≤ c.arcLengths.length)
    (hgap : ∀ i, i+1 < c.arcLengths.length →
      c.arcLengths.getD i 0 + kEpsilon ≤ c.arcLengths.getD (i+1) 0) :
    (∀ s, s < c.arcLengths.getD 1 0 - kEpsilon →
      c.normal? s = some (firstSegmentNormal c)) ∧
    (∀ s, c.arcLengths.getD (c.arcLengths.length - 2) 0 + kEpsilon < s →
      c.normal? s = some (lastSegmentNormal c)) := by
  have heps : (0:ℚ) < kEpsilon := by norm_num [kEpsilon]
  have hmono := gap_mono c.arcLengths hgap
  constructor
  · intro s hs
    by_cases hsf : |s - c.arcLengths.getD 0 0| < kEpsilon
    · exact normal_first_branch c hlen h3 s (by rw [nue_snap_front c.arcLengths s (by omega) hsf]; omega)
    · have h1N : c.arcLengths.getD 1 0 + kEpsilon ≤ c.arcLengths.getD (c.arcLengths.length - 1) 0 :=
        gap_sep c.arcLengths hgap 1 _ (by omega) (by omega)
      have hsb : ¬ |s - c.arcLengths.getD (c.arcLengths.length - 1) 0| < kEpsilon := by
        rw [abs_sub_lt_iff]
        push_neg
        intro h
        linarith
      have hnue := nue_no_snap c.arcLengths s (by omega) hsf hsb
      by_cases hc : s + kEpsilon < c.arcLengths.getD 0 0
      · have hub : upperBoundIdx c.arcLengths s kEpsilon = 0 :=
          upperBoundIdx_spec_at c.arcLengths s kEpsilon 0 (by omega) (by omega) hc
        exact normal_first_branch c hlen h3 s (by rw [hnue, hub]; omega)
      · have hub : upperBoundIdx c.arcLengths s kEpsilon = 1 := by
          apply upperBoundIdx_spec_at c.arcLengths s kEpsilon 1 (by omega)
          · intro j hj
            have : j = 0 := by omega
            subst this
            push_neg at hc
            linarith
          · linarith
        exact normal_first_branch c hlen h3 s (by rw [hnue, hub]; omega)
  · intro s hs
    have h0n2 : c.arcLengths.getD 0 0 + kEpsilon ≤ c.arcLengths.getD (c.arcLengths.length - 2) 0 :=
      gap_sep c.arcLengths hgap 0 _ (by omega) (by omega)
    have hsf : ¬ |s - c.arcLengths.getD 0 0| < kEpsilon := by
      rw [abs_sub_lt_iff]
      push_neg
      intro h
      linarith
    by_cases hsb : |s - c.arcLengths.getD (c.arcLengths.length - 1) 0| < kEpsilon
    · exact normal_interior_last_branch c hlen h3 s
        (nue_snap_back c.arcLengths s (by omega) hsf hsb)
    · have hnue := nue_no_snap c.arcLengths s (by omega) hsf hsb
      by_cases hc : s + kEpsilon < c.arcLengths.getD (c.arcLengths.length - 1) 0
      · have hub : upperBoundIdx c.arcLengths s kEpsilon = c.arcLengths.length - 1 := by
          apply upperBoundIdx_spec_at c.arcLengths s kEpsilon _ (by omega) _ hc
          intro j hj
          have : c.arcLengths.getD j 0 ≤ c.arcLengths.getD (c.arcLengths.length - 2) 0 :=
            hmono j _ (by omega) (by omega)
          linarith
        exact normal_interior_last_branch c hlen h3 s (by rw [hnue, hub])
      · have hub : upperBoundIdx c.arcLengths s kEpsilon = c.arcLengths.length := by
          apply upperBoundIdx_eq_length
          intro j hj
          have : c.arcLengths.getD j 0 ≤ c.arcLengths.getD (c.arcLengths.length - 1) 0 :=
            hmono j _ (by omega) (by omega)
          push_neg at hc
          linarith
        exact normal_end_branch c hlen h3 s (by rw [hnue, hub])

/-- Witness for C10 at `triCurve`: the first-segment normal at `s = 1/2`
is `(0, 1)` and the last-segment normal at `s = 5/2` is `(-1, 0)`. -/
theorem C10_normal_boundary_witness :
    triCurve.normal? (1/2) = some ⟨0, 1⟩ ∧ triCurve.normal? (5/2) = some ⟨-1, 0⟩ := by
  have h := C10_normal_boundary triCurve (by norm_num [triCurve, triPts])
    (by norm_num [triCurve])
    (by
      intro i hi
      norm_num [triCurve] at hi
      have hc : i = 0 ∨ i = 1 := by omega
      rcases hc with rfl | rfl <;> norm_num [triCurve, kEpsilon])
  constructor
  · rw [h.1 (1/2) (by norm_num [triCurve, kEpsilon])]
    norm_num [firstSegmentNormal, triCurve, triPts, Vec2q.rotateHalfPi, Vec2q.normalized,
      Vec2q.euclidean, Vec2q.crossProj, ratSqrt, natSqrtLinear, natSqrtAux,
      vec2_sub_x, vec2_sub_y, vec2_div_x, vec2_div_y, vec2_mul_x, vec2_mul_y]
    apply vec2_ext <;>
      norm_num [vec2_div_x, vec2_div_y, vec2_mul_x, vec2_mul_y]
  · rw [h.2 (5/2) (by norm_num [triCurve, kEpsilon])]
    norm_num [lastSegmentNormal, triCurve, triPts, Vec2q.rotateHalfPi, Vec2q.normalized,
      Vec2q.euclidean, Vec2q.crossProj, ratSqrt, natSqrtLinear, natSqrtAux,
      vec2_sub_x, vec2_sub_y, vec2_div_x, vec2_div_y, vec2_mul_x, vec2_mul_y]
    apply vec2_ext <;>
      norm_num [vec2_div_x, vec2_div_y, vec2_mul_x, vec2_mul_y]

/-! ### Claim C3: inversion against evaluation -/

/-- C3 counterexample: on the U-shaped curve through `sqPts` (arc lengths
`[0,1,2,3]`), the on-curve point `eval(3/5, 0) = (3/5, 0)` is nearest to
anchor 1, the dot-product tie-break sends the search to segment 2, and
`inverse` returns `(s, l) = (1, 2/5)` instead of `(3/5, 0)`: the recovered
arc length misses the true one by far more than the claimed `1e-3` relative
tolerance and the lateral offset is not approximately zero. -/
theorem C3_inverse_counterexample :
    mkPiecewiseLinearCurve2 sqPts 0 = .ok sqCurve ∧
    sqCurve.evalSl? (3/5) 0 = some ⟨3/5, 0⟩ ∧
    sqCurve.inverse? ⟨3/5, 0⟩ = some ⟨1, 2/5⟩ ∧
    ¬ (|(1 : ℚ) - 3/5| ≤ 1/1000 * (3/5)) ∧ ((2:ℚ)/5 ≠ 0) := by
  refine ⟨?_, ?_, ?_,
    by rw [abs_of_pos (by norm_num : (0:ℚ) < 1 - 3/5)]; norm_num, by norm_num⟩
  · norm_num [mkPiecewiseLinearCurve2, sqPts, sqCurve, cumulativeArcLengths, arcAux,
      Vec2q.euclideanTo, ratSqrt, natSqrtLinear, natSqrtAux, isSortedB, hasDuplicates,
      sortQ, insertSorted, adjacentDupB, abs_lt, kEpsilon]
  · norm_num [PiecewiseLinearCurve2.evalSl?, sqCurve, sqPts, nearestUpperElement,
      upperBoundIdx, firstSatisfying, abs_lt, kEpsilon, Vec2q.lerp, Vec2q.rotateHalfPi,
      Vec2q.normalized, Vec2q.euclidean, Vec2q.crossProj, ratSqrt, natSqrtLinear,
      natSqrtAux, vec2_sub_x, vec2_sub_y, vec2_div_x, vec2_div_y, vec2_mul_x, vec2_mul_y,
      vec2_add_x, vec2_add_y]
    apply vec2_ext <;>
      norm_num [vec2_add_x, vec2_add_y, vec2_mul_x, vec2_mul_y, vec2_div_x, vec2_div_y]
  · norm_num [PiecewiseLinearCurve2.inverse?, PiecewiseLinearCurve2.process?, sqCurve,
      sqPts, vecNearestUpperElement, vecArgmin, vecArgminAux, Vec2q.euclideanTo,
      Vec2q.dot, Vec2q.lerp, Vec2q.rotateHalfPi, Vec2q.normalized, Vec2q.euclidean,
      Vec2q.crossProj, ratSqrt, natSqrtLinear, natSqrtAux, vec2_sub_x, vec2_sub_y,
      vec2_div_x, vec2_div_y, vec2_mul_x, vec2_mul_y, vec2_add_x, vec2_add_y, kEpsilon]

/-- C3 amended: inversion is an exact left inverse of evaluation on the curve
itself whenever the nearest-anchor search selects the bracketing segment of
the evaluated arc length (which the U-shaped counterexample violates): for an
interior segment `pos` whose arc-length gap equals the segment's Euclidean
length (as the constructor guarantees) and whose norm `ratSqrt` computes
exactly, the point `lerp(p[pos-1], p[pos], ratio)` inverts to exactly
`(arc[pos-1] + ratio * (arc[pos] - arc[pos-1]), 0)`. -/
theorem C3_inverse_exact_on_segment (c : PiecewiseLinearCurve2) (pos : ℕ)
    (ratio s : ℚ) (point : Vec2q)
    (hlen : c.anchorPoints.length = c.arcLengths.length)
    (hpos2 : 2 ≤ pos) (hposn : pos + 1 ≤ c.anchorPoints.length)
    (hpoint : point = Vec2q.lerp (c.anchorPoints.getD (pos-1) default)
      (c.anchorPoints.getD pos default) ratio)
    (hsearch : vecNearestUpperElement c.anchorPoints point = pos)
    (hE : (c.anchorPoints.getD pos default - c.anchorPoints.getD (pos-1) default).euclidean *
        (c.anchorPoints.getD pos default - c.anchorPoints.getD (pos-1) default).euclidean =
      (c.anchorPoints.getD pos default - c.anchorPoints.getD (pos-1) default).dot
        (c.anchorPoints.getD pos default - c.anchorPoints.getD (pos-1) default))
    (hEpos : 0 <
      (c.anchorPoints.getD pos default - c.anchorPoints.getD (pos-1) default).euclidean)
    (harc : c.arcLengths.getD pos 0 - c.arcLengths.getD (pos-1) 0 =
      (c.anchorPoints.getD pos default - c.anchorPoints.getD (pos-1) default).euclidean)
    (hs : s = c.arcLengths.getD (pos-1) 0 +
      ratio * (c.arcLengths.getD pos 0 - c.arcLengths.getD (pos-1) 0)) :
    c.inverse? point = some ⟨s, 0⟩ := by
  subst hpoint
  subst hs
  simp only [PiecewiseLinearCurve2.inverse?, PiecewiseLinearCurve2.process?, hsearch]
  rw [if_neg (by omega), if_neg (by omega)]
  rw [get?_eq_some_getD c.anchorPoints default (pos-1) (by omega),
    get?_eq_some_getD c.arcLengths 0 (pos-1) (by omega),
    get?_eq_some_getD c.arcLengths 0 (pos-2) (by omega),
    get?_eq_some_getD c.arcLengths 0 pos (by omega),
    get?_eq_some_getD c.anchorPoints default (pos-2) (by omega),
    get?_eq_some_getD c.anchorPoints default pos (by omega)]
  simp only [Option.bind_eq_bind, Option.some_bind, Option.pure_def]
  rw [Option.some.injEq, SlDuplet.mk.injEq]
  set P := c.anchorPoints.getD pos default with hP
  set Q := c.anchorPoints.getD (pos-1) default with hQ
  set E := (P - Q).euclidean with hEdef
  have hEne : E ≠ 0 := ne_of_gt hEpos
  constructor
  · rw [harc]
    simp only [Vec2q.normalized, Vec2q.dot, Vec2q.lerp, vec2_sub_x, vec2_sub_y,
      vec2_div_x, vec2_div_y, vec2_mul_x, vec2_mul_y, vec2_add_x, vec2_add_y]
    rw [Vec2q.dot] at hE
    simp only [vec2_sub_x, vec2_sub_y] at hE
    rw [← hEdef]
    field_simp
    linear_combination (-ratio) * hE
  · simp only [Vec2q.normalized, Vec2q.dot, Vec2q.lerp, Vec2q.rotateHalfPi,
      vec2_sub_x, vec2_sub_y, vec2_div_x, vec2_div_y, vec2_mul_x, vec2_mul_y,
      vec2_add_x, vec2_add_y]
    ring

/-- Witness for C3 on `triCurve`: the midpoint of its second segment,
`(1, 1/2)`, inverts to exactly `(3/2, 0)`. -/
theorem C3_inverse_exact_on_segment_witness :
    triCurve.inverse? ⟨1, 1/2⟩ = some ⟨3/2, 0⟩ := by
  have h := C3_inverse_exact_on_segment triCurve 2 (1/2) (3/2) ⟨1, 1/2⟩
    (by norm_num [triCurve, triPts])
    (by norm_num)
    (by norm_num [triCurve, triPts])
    (by
      apply vec2_ext <;>
        norm_num [triCurve, triPts, Vec2q.lerp, vec2_add_x, vec2_add_y, vec2_mul_x,
          vec2_mul_y])
    (by
      norm_num [triCurve, triPts, vecNearestUpperElement, vecArgmin, vecArgminAux,
        Vec2q.euclideanTo, Vec2q.dot, ratSqrt, natSqrtLinear, natSqrtAux,
        vec2_sub_x, vec2_sub_y, kEpsilon])
    (by
      norm_num [triCurve, triPts, Vec2q.euclidean, Vec2q.dot, ratSqrt, natSqrtLinear,
        natSqrtAux, vec2_sub_x, vec2_sub_y])
    (by
      norm_num [triCurve, triPts, Vec2q.euclidean, ratSqrt, natSqrtLinear,
        natSqrtAux, vec2_sub_x, vec2_sub_y])
    (by
      norm_num [triCurve, triPts, Vec2q.euclidean, ratSqrt, natSqrtLinear,
        natSqrtAux, vec2_sub_x, vec2_sub_y])
    (by norm_num [triCurve])
  exact h

/-! ### Claim C9: antisymmetry of the integral bounds -/

theorem plf1_integral_swap (f : PiecewiseLinearFunction1) (a b : ℚ) :
    f.integral a b = -f.integral b a := by
  rcases lt_trichotomy a b with h | h | h
  · have h1 : ¬ a > b := not_lt.mpr h.le
    have h2 : b > a := h
    simp only [PiecewiseLinearFunction1.integral, h1, h2, if_true, if_false]
    split_ifs <;> ring
  · subst h
    have h1 : ¬ a > a := lt_irrefl a
    simp only [PiecewiseLinearFunction1.integral, h1, if_false, eq_self_iff_true, or_true,
      if_true]
    ring
  · have h1 : a > b := h
    have h2 : ¬ b > a := not_lt.mpr h.le
    simp only [PiecewiseLinearFunction1.integral, h1, h2, if_true, if_false]
    split_ifs <;> ring

theorem plf1_integral_refl (f : PiecewiseLinearFunction1) (a : ℚ) : f.integral a a = 0 := by
  have h1 : ¬ a > a := lt_irrefl a
  simp only [PiecewiseLinearFunction1.integral, h1, if_false, eq_self_iff_true, or_true,
    if_true]
  ring

theorem pcf1_integral_swap (f : PiecewiseCubicFunction1) (a b : ℚ) :
    f.integral a b = -f.integral b a := by
  rcases lt_trichotomy a b with h | h | h
  · have h1 : ¬ a > b := not_lt.mpr h.le
    have h2 : b > a := h
    simp only [PiecewiseCubicFunction1.integral, h1, h2, if_true, if_false]
    split_ifs <;> ring
  · subst h
    have h1 : ¬ a > a := lt_irrefl a
    simp only [PiecewiseCubicFunction1.integral, h1, if_false, eq_self_iff_true, or_true,
      if_true]
    ring
  · have h1 : a > b := h
    have h2 : ¬ b > a := not_lt.mpr h.le
    simp only [PiecewiseCubicFunction1.integral, h1, h2, if_true, if_false]
    split_ifs <;> ring

theorem pcf1_integral_refl (f : PiecewiseCubicFunction1) (a : ℚ) : f.integral a a = 0 := by
  have h1 : ¬ a > a := lt_irrefl a
  simp only [PiecewiseCubicFunction1.integral, h1, if_false, eq_self_iff_true, or_true,
    if_true]
  ring

/-! ### Claim C6: construction raises exactly on invalid input -/

theorem order_cond_iff (k : ℕ) : (k = 0 ∨ k > 2) ↔ (k ≠ 1 ∧ k ≠ 2) := by omega

theorem mkPLF1_raises_iff (ts ys : List ℚ) :
    raises (mkPiecewiseLinearFunction1 ts ys) ↔
      (ts.length < 2 ∨ ys.length < 2 ∨ ts.length ≠ ys.length ∨
        ¬ isSortedB ts ∨ hasDuplicates ts kEpsilon) := by
  unfold mkPiecewiseLinearFunction1
  split_ifs with h1 h2 h3 h4 <;> simp only [raises, true_iff, false_iff] <;> tauto

theorem mkPCF1_raises_iff (ts ys : List ℚ) (b0 bf : BoundaryMode) :
    raises (mkPiecewiseCubicFunction1 ts ys b0 bf) ↔
      (ts.length < 2 ∨ ys.length < 2 ∨ ts.length ≠ ys.length ∨
        ¬ isSortedB ts ∨ hasDuplicates ts kEpsilon ∨
        (b0.order ≠ 1 ∧ b0.order ≠ 2) ∨ (bf.order ≠ 1 ∧ bf.order ≠ 2)) := by
  unfold mkPiecewiseCubicFunction1
  rw [← order_cond_iff b0.order, ← order_cond_iff bf.order]
  split_ifs with h1 h2 h3 h4 h5 h6 <;> simp only [raises, true_iff, false_iff] <;> tauto

theorem mkPCF1Periodic_raises_iff (ts ys : List ℚ) :
    raises (mkPiecewiseCubicFunction1Periodic ts ys) ↔
      (ts.length < 2 ∨ ys.length < 2 ∨ ts.length ≠ ys.length ∨
        ¬ isSortedB ts ∨ hasDuplicates ts kEpsilon ∨
        |ys.headD 0 - ys.getLast?.getD 0| > kEpsilon) := by
  unfold mkPiecewiseCubicFunction1Periodic
  split_ifs with h1 h2 h3 h4 h5 <;> simp only [raises, true_iff, false_iff] <;> tauto

/-- C6: under `BOYLE_CHECK_PARAMS == 1`, interpolant construction raises the
invalid-argument error exactly when the input is invalid — sizes below 2,
mismatched lengths, unsorted breakpoints, near-duplicate breakpoints within
tolerance `1e-8`, a cubic boundary order other than 1 or 2, or a periodic
construction whose front and back samples differ by more than `1e-8`; valid
input never raises. -/
theorem C6_construction_validation :
    (∀ ts ys : List ℚ, raises (mkPiecewiseLinearFunction1 ts ys) ↔
      (ts.length < 2 ∨ ys.length < 2 ∨ ts.length ≠ ys.length ∨
        ¬ isSortedB ts ∨ hasDuplicates ts kEpsilon)) ∧
    (∀ (ts ys : List ℚ) (b0 bf : BoundaryMode),
      raises (mkPiecewiseCubicFunction1 ts ys b0 bf) ↔
      (ts.length < 2 ∨ ys.length < 2 ∨ ts.length ≠ ys.length ∨
        ¬ isSortedB ts ∨ hasDuplicates ts kEpsilon ∨
        (b0.order ≠ 1 ∧ b0.order ≠ 2) ∨ (bf.order ≠ 1 ∧ bf.order ≠ 2))) ∧
    (∀ ts ys : List ℚ, raises (mkPiecewiseCubicFunction1Periodic ts ys) ↔
      (ts.length < 2 ∨ ys.length < 2 ∨ ts.length ≠ ys.length ∨
        ¬ isSortedB ts ∨ hasDuplicates ts kEpsilon ∨
        |ys.headD 0 - ys.getLast?.getD 0| > kEpsilon)) :=
  ⟨mkPLF1_raises_iff, mkPCF1_raises_iff, mkPCF1Periodic_raises_iff⟩

/-- C9: for every linear or cubic interpolant and every pair of bounds `a, b`,
`integral(a, b) = -integral(b, a)` (the lower-greater-than-upper case is
evaluated over the swapped bounds and negated), and `integral(a, a) = 0`. -/
theorem C9_integral_antisymmetry :
    (∀ (f : PiecewiseLinearFunction1) (a b : ℚ), f.integral a b = -f.integral b a) ∧
    (∀ (f : PiecewiseLinearFunction1) (a : ℚ), f.integral a a = 0) ∧
    (∀ (f : PiecewiseCubicFunction1) (a b : ℚ), f.integral a b = -f.integral b a) ∧
    (∀ (f : PiecewiseCubicFunction1) (a : ℚ), f.integral a a = 0) :=
  ⟨plf1_integral_swap, plf1_integral_refl, pcf1_integral_swap, pcf1_integral_refl⟩

end Boyle
